import Mathlib

/-!
Verification of the KallistiOS ramdisk filesystem driver
(src/kernel/fs/fs_ramdisk.c).

The driver keeps an in-memory tree of file/directory nodes (`rd_file_t`),
a table of open descriptors (`rd_fd_t`), and implements the VFS operation
set (open/close/read/write/seek/total/readdir/unlink/stat/fstat) plus the
zero-copy attach/detach bridge.  This file gives a shallow embedding of
those structures and operations and proves properties about them.

Modelling conventions:
* C strings (paths, names) and byte buffers are `List Nat` (byte values).
* `uint32_t` arithmetic is `Nat` with an explicit `% 2^32` (`u32`) at the
  points where the C code can wrap; `(int)` casts use `i32`.
* Pointers to nodes are encoded as the path of exact stored names from the
  root (`List Bytes`); descriptor handles are indices into the descriptor
  list; the NULL handle is `Option.none`.
* Allocation is modelled as succeeding, except for the `realloc` inside
  `ramdisk_write`, whose outcome is an explicit `allocOk` parameter
  (the only allocation whose failure behaviour the specification pins down).
* `errno` is `Option Errno`: `none` means "never set since the start of the
  observation window", so theorems can express "the call did not touch
  errno".
-/

namespace Ramdisk

/-- Byte sequences: C strings (without the terminating NUL) and data
buffers. -/
abbrev Bytes := List Nat

/-- The errno values the driver can set (from errno.h, external to src/). -/
inductive Errno where
  | ENOENT | EBADF | EBUSY | EINVAL | ENOMEM | ENOSPC | EISDIR
  deriving DecidableEq, Repr

/-- Lock constant OPENFOR_NOTHING (fs_ramdisk.c line 79). -/
def OPENFOR_NOTHING : Nat := 0
/-- Lock constant OPENFOR_READ (fs_ramdisk.c line 80). -/
def OPENFOR_READ : Nat := 1
/-- Lock constant OPENFOR_WRITE (fs_ramdisk.c line 81). -/
def OPENFOR_WRITE : Nat := 2

/-- Modelled from the spec: open-mode flag encoding of the platform headers
(kos/fs.h and fcntl.h are not part of src/).  The spec (section 6) lists the
mode flags read/write/append/truncate/directory; the numeric values follow
the newlib/KOS headers the driver is compiled against.  Read mode. -/
def O_RDONLY : Nat := 0
/-- Modelled from the spec: write-only mode bit (see `O_RDONLY`). -/
def O_WRONLY : Nat := 1
/-- Modelled from the spec: read-write mode bit (see `O_RDONLY`). -/
def O_RDWR : Nat := 2
/-- Modelled from the spec: append flag (see `O_RDONLY`). -/
def O_APPEND : Nat := 8
/-- Modelled from the spec: truncate flag (see `O_RDONLY`). -/
def O_TRUNC : Nat := 1024
/-- Modelled from the spec: directory flag (see `O_RDONLY`). -/
def O_DIR : Nat := 4096
/-- Modelled from the spec: mask extracting the access-mode bits
(see `O_RDONLY`). -/
def O_MODE_MASK : Nat := 15

/-- SEEK_SET whence value. -/
def SEEK_SET : Nat := 0
/-- SEEK_CUR whence value. -/
def SEEK_CUR : Nat := 1
/-- SEEK_END whence value. -/
def SEEK_END : Nat := 2

/-- The block-size constant rd_blksize = 1024 (fs_ramdisk.c line 112). -/
def rd_blksize : Nat := 1024

/-- 2^32, the modulus of the driver's uint32_t fields. -/
def U32 : Nat := 4294967296

/-- uint32_t truncation. -/
def u32 (n : Nat) : Nat := n % U32

/-- The value of a `(int)` cast applied to a uint32_t quantity. -/
def i32 (n : Nat) : Int :=
  if n % U32 < 2147483648 then (n % U32 : Int) else (n % U32 : Int) - (U32 : Int)

/-- The scalar fields of `rd_file_t` (fs_ramdisk.c lines 56-76): name, actual
file size, directory flag, lock constant `openfor`, usage count, the data
block (for files) and its allocated size `datasize`. -/
structure RdF where
  name : Bytes
  size : Nat
  isdir : Bool
  openfor : Nat
  usage : Int
  bytes : Bytes
  datasize : Nat
  deriving DecidableEq, Repr

/-- An `rd_file_t` node: its scalar fields plus, for directories, the list
of children (the `rd_dir_t` its `data` member points to).  For files the
children list is empty and the content lives in `core.bytes`. -/
inductive RdNode : Type where
  | mk (core : RdF) (children : List RdNode) : RdNode

/-- Scalar fields of a node. -/
def RdNode.core : RdNode → RdF
  | .mk c _ => c

/-- Children of a (directory) node. -/
def RdNode.children : RdNode → List RdNode
  | .mk _ cs => cs

/-- Update the scalar fields of a node, keeping its children. -/
def RdNode.mapCore (g : RdF → RdF) : RdNode → RdNode
  | .mk c cs => .mk (g c) cs

/-- An entry of the descriptor list, `rd_fd_t` (fs_ramdisk.c lines 94-101).
`file` is the node pointer (`none` after the close code clears it), `dir`
the directory flag, `ptr` the byte cursor of a file descriptor, `dcur` the
directory cursor (in C it is the node pointer cast into `ptr`; `none` is
the NULL pointer), `omode` the open mode. -/
structure RdFd where
  file : Option (List Bytes)
  dir : Bool
  ptr : Nat
  dcur : Option Bytes
  omode : Nat
  deriving DecidableEq, Repr

/-- The global state of the driver: the root node (`root` / `rootdir`,
fs_ramdisk.c lines 87-88), the descriptor list (`rd_fd_queue`), and the
process errno channel. -/
structure RdState where
  root : RdNode
  fds : List RdFd
  errno : Option Errno

/-- Set errno. -/
def setE (st : RdState) (e : Errno) : RdState := { st with errno := some e }

/-- Look up a descriptor handle (`none` models the NULL pointer; an index
outside the list models a pointer that was never handed out). -/
def getFd (st : RdState) (h : Option Nat) : Option RdFd :=
  match h with
  | none => none
  | some i => st.fds[i]?

/-- A live descriptor: its index, its value, and the node it references.
Returns `none` exactly when `ramdisk_fd_invalid` (fs_ramdisk.c lines
115-117) would report the handle invalid: NULL handle or `fd->file == NULL`. -/
def liveFd (st : RdState) (h : Option Nat) : Option (Nat × RdFd × List Bytes) :=
  match h with
  | none => none
  | some i =>
    match st.fds[i]? with
    | none => none
    | some fd =>
      match fd.file with
      | none => none
      | some r => some (i, fd, r)

/-- `ramdisk_fd_invalid` (fs_ramdisk.c lines 115-117). -/
def ramdisk_fd_invalid (st : RdState) (h : Option Nat) : Bool :=
  (liveFd st h).isNone

/-- tolower on a byte, as used by strncasecmp. -/
def lowerByte (b : Nat) : Nat := if 65 ≤ b ∧ b ≤ 90 then b + 32 else b

/-- The comparison performed by `ramdisk_find` (fs_ramdisk.c line 125):
`strlen(f->name) == namelen && !strncasecmp(name, f->name, namelen)`,
i.e. equal length and case-insensitively equal bytes. -/
def caseEq (a b : Bytes) : Bool := a.map lowerByte == b.map lowerByte

/-- Helper for `splitSlash`. -/
def splitSlashAux : Bytes → Bytes → List Bytes
  | [], acc => [acc.reverse]
  | b :: rest, acc =>
    if b = 47 then acc.reverse :: splitSlashAux rest []
    else splitSlashAux rest (b :: acc)

/-- The sequence of slash-separated pieces of a path, as produced by the
`strchr(fn, '/')` loop of `ramdisk_find_path` (fs_ramdisk.c lines 140-157). -/
def splitSlash (p : Bytes) : List Bytes := splitSlashAux p []

/-- `strrchr(fn, '/')` followed by the split performed by
`ramdisk_get_parent` (fs_ramdisk.c lines 184-199): the bytes before the
last slash and the bytes after it, or `none` when the path has no slash. -/
def revSplitSlash : Bytes → Option (Bytes × Bytes)
  | [] => none
  | b :: rest =>
    match revSplitSlash rest with
    | some (p, s) => some (b :: p, s)
    | none => if b = 47 then some ([], rest) else none

/-- The `if(fn[0] == '/') fn++;` of `ramdisk_open` (fs_ramdisk.c lines
276-277). -/
def stripSlash (fn : Bytes) : Bytes :=
  match fn with
  | [] => []
  | b :: rest => if b = 47 then rest else b :: rest

/-- Find a child by exact stored name: this is how a node pointer (our
name-path encoding) is dereferenced. -/
def findExact : List RdNode → Bytes → Option RdNode
  | [], _ => none
  | n :: rest, nm => if n.core.name = nm then some n else findExact rest nm

/-- `ramdisk_find` (fs_ramdisk.c lines 121-130): first child of the
directory whose name matches case-insensitively with equal length. -/
def ramdisk_find : List RdNode → Bytes → Option RdNode
  | [], _ => none
  | f :: rest, nm => if caseEq nm f.core.name then some f else ramdisk_find rest nm

/-- The name-path of the accumulated `f` of `ramdisk_find_path` (see
`findPathAux`). -/
def accPath (acc : Option (List Bytes × RdNode)) : List Bytes :=
  match acc with
  | none => []
  | some (p, _) => p

/-- The loop of `ramdisk_find_path` (fs_ramdisk.c lines 134-176) over the
slash-separated pieces of the path.  `acc` is the running value of the
local variable `f` (the last directory descended into) paired with its
name-path; it starts as `none` (`f = NULL`).  Empty pieces are skipped
(`cur == fn`); a non-final piece must name a directory to descend into;
the final piece, when non-empty, is looked up with the caller's
file/directory expectation, and when empty the walk succeeds only when a
directory was expected, returning `f`. -/
def findPathAux : List RdNode → Bool → Option (List Bytes × RdNode) →
    List Bytes → Option (List Bytes × RdNode)
  | _, dir, acc, [] =>
    -- unreachable: splitSlash always yields at least one piece; the C loop
    -- ends on the piece after the last slash
    if dir then acc else none
  | ns, dir, acc, [last] =>
    if last = [] then
      if dir then acc else none
    else
      match ramdisk_find ns last with
      | none => none
      | some f =>
        if (!dir && f.core.isdir) || (dir && !f.core.isdir) then none
        else some (accPath acc ++ [f.core.name], f)
  | ns, dir, acc, c :: rest =>
    if c = [] then findPathAux ns dir acc rest
    else
      match ramdisk_find ns c with
      | none => none
      | some f =>
        if !f.core.isdir then none
        else findPathAux f.children dir (some (accPath acc ++ [f.core.name], f)) rest

/-- `ramdisk_find_path` (fs_ramdisk.c lines 134-176), returning the found
node together with its name-path (the pointer encoding). -/
def ramdisk_find_path (root : RdNode) (fn : Bytes) (dir : Bool) :
    Option (List Bytes × RdNode) :=
  findPathAux root.children dir none (splitSlash fn)

/-- Dereference a name-path: walk the exact stored names from the root. -/
def getNode (root : RdNode) : List Bytes → Option RdNode
  | [] => some root
  | nm :: rest =>
    match findExact root.children nm with
    | none => none
    | some c => getNode c rest

/-- Replace the first child with the given exact name by its image under
`g`; used to implement mutation through a node pointer. -/
def updChild (nm : Bytes) (g : RdNode → RdNode) : List RdNode → List RdNode
  | [] => []
  | n :: rest => if n.core.name = nm then g n :: rest else n :: updChild nm g rest

/-- Mutate the node a name-path points to. -/
def updateNode (root : RdNode) : List Bytes → (RdNode → RdNode) → RdNode
  | [], g => g root
  | nm :: rest, g =>
    .mk root.core (updChild nm (fun c => updateNode c rest g) root.children)

/-- `LIST_REMOVE` of the child a name points to (fs_ramdisk.c line 617). -/
def removeChild (nm : Bytes) : List RdNode → List RdNode
  | [] => []
  | n :: rest => if n.core.name = nm then rest else n :: removeChild nm rest

/-- `LIST_NEXT(f, dirlist)` (fs_ramdisk.c line 572): the name of the child
after the one the cursor points to, in the directory's current list. -/
def nextAfter (nm : Bytes) : List RdNode → Option Bytes
  | [] => none
  | n :: rest => if n.core.name = nm then (rest.head?).map (fun c => c.core.name)
                 else nextAfter nm rest

/-- `ramdisk_get_parent` (fs_ramdisk.c lines 179-215): split the path at its
last slash, resolve the prefix as a directory (name-path returned), and
return the suffix as the new entry's name.  A path with no slash resolves
to the root directory.  The `malloc` of the prefix copy is modelled as
succeeding. -/
def ramdisk_get_parent (root : RdNode) (fn : Bytes) : Option (List Bytes × Bytes) :=
  match revSplitSlash fn with
  | none => some ([], fn)
  | some (pname, rest) =>
    match findPathAux root.children true none (splitSlash pname) with
    | none => none
    | some (dref, _) => some (dref, rest)

/-- `ramdisk_create_file` (fs_ramdisk.c lines 219-266): find the parent
directory, allocate a fresh node (files start with one `rd_blksize` block
and zero size; the fresh block is uninitialized memory, modelled as zero
bytes), and insert it at the head of the parent's child list.  Returns the
new root and the new node's name-path; `none` means the parent lookup
failed (errno ENOENT).  Node allocations are modelled as succeeding. -/
def ramdisk_create_file (root : RdNode) (fn : Bytes) (dir : Bool) :
    Option (RdNode × List Bytes) :=
  match ramdisk_get_parent root fn with
  | none => none
  | some (dref, p) =>
    let f : RdNode := .mk
      { name := p, size := 0, isdir := dir, openfor := OPENFOR_NOTHING, usage := 0,
        bytes := if dir then [] else List.replicate rd_blksize 0,
        datasize := if dir then 0 else rd_blksize } []
    some (updateNode root dref (fun d => .mk d.core (f :: d.children)), dref ++ [p])

/-- The path-resolution phase of `ramdisk_open` (fs_ramdisk.c lines
287-311): the empty path is the root; otherwise resolve, and on failure
create the file when a non-directory write mode was requested.  Returns
the node's name-path, the node, and the (possibly updated) state; `none`
covers both the plain not-found failure and a failed creation, which set
errno ENOENT. -/
def openResolve (st : RdState) (fn : Bytes) (mode mm : Nat) :
    Option (List Bytes × RdNode × RdState) :=
  if fn = [] then some ([], st.root, st)
  else
    match ramdisk_find_path st.root fn (mode &&& O_DIR ≠ 0) with
    | some (r, f) => some (r, f, st)
    | none =>
      if mm ≠ O_RDONLY ∧ mode &&& O_DIR = 0 then
        match ramdisk_create_file st.root fn (mode &&& O_DIR ≠ 0) with
        | none => none
        | some (root', r) =>
          match getNode root' r with
          | none => none
          | some f => some (r, f, { st with root := root' })
      else none

/-- The final phase of `ramdisk_open` (fs_ramdisk.c lines 365-378): for a
directory open the cursor is set to the first child; the node's usage
count is incremented and the descriptor is appended to the descriptor
list.  The returned handle is the new descriptor's index. -/
def openFinish (st : RdState) (r : List Bytes) (f : RdNode) (mode : Nat)
    (p : Nat) : Option Nat × RdState :=
  let fd : RdFd :=
    { file := some r, dir := mode &&& O_DIR ≠ 0, ptr := p,
      dcur := if mode &&& O_DIR ≠ 0 then (f.children.head?).map (fun c => c.core.name)
              else none,
      omode := mode }
  (some st.fds.length,
   { st with
     root := updateNode st.root r (RdNode.mapCore (fun c => { c with usage := c.usage + 1 })),
     fds := st.fds ++ [fd] })

/-- `ramdisk_open` (fs_ramdisk.c lines 269-379).  Returns the new handle or
`none` (the NULL return).  Note that the two exclusivity failures (node
already open for write, line 320-321; write request on a node open for
read, line 343-344) return NULL without setting errno.  The
`assert_msg(0, "Unknown file mode")` branch (line 362) halts the program;
it is modelled as a NULL return and is reached by no theorem below. -/
def ramdisk_open (st : RdState) (fn0 : Bytes) (mode : Nat) : Option Nat × RdState :=
  let fn := stripSlash fn0
  let mm := mode &&& O_MODE_MASK
  if mode &&& O_DIR ≠ 0 ∧ mm ≠ O_RDONLY then (none, setE st .EISDIR)
  else
    match openResolve st fn mode mm with
    | none => (none, setE st .ENOENT)
    | some (r, f, st1) =>
      if f.core.isdir ∧ mode &&& O_DIR = 0 then (none, setE st1 .EINVAL)
      else if f.core.openfor = OPENFOR_WRITE then (none, st1)
      else if mm = O_RDONLY then
        let g := RdNode.mapCore (fun c => { c with openfor := OPENFOR_READ })
        openFinish { st1 with root := updateNode st1.root r g } r f mode 0
      else if mm &&& O_RDWR ≠ 0 ∨ mm &&& O_WRONLY ≠ 0 then
        if f.core.openfor = OPENFOR_READ then (none, st1)
        else if mode &&& O_APPEND ≠ 0 then
          let g := RdNode.mapCore (fun c => { c with openfor := OPENFOR_WRITE })
          openFinish { st1 with root := updateNode st1.root r g } r f mode f.core.size
        else if mode &&& O_TRUNC ≠ 0 then
          let g := RdNode.mapCore (fun c =>
            { c with openfor := OPENFOR_WRITE,
                     datasize := rd_blksize,
                     bytes := List.replicate rd_blksize 0,
                     size := 0 })
          openFinish { st1 with root := updateNode st1.root r g } r f mode 0
        else
          let g := RdNode.mapCore (fun c => { c with openfor := OPENFOR_WRITE })
          openFinish { st1 with root := updateNode st1.root r g } r f mode 0
      else (none, st1)

/-- The node mutation performed by `ramdisk_close` (fs_ramdisk.c lines
397-404): decrement the usage count and, when it reaches zero, reset the
lock state to OPENFOR_NOTHING. -/
def closeUpd (c : RdF) : RdF :=
  let u := c.usage - 1
  if u = 0 then { c with usage := u, openfor := OPENFOR_NOTHING }
  else { c with usage := u }

/-- `ramdisk_close` (fs_ramdisk.c lines 382-411).  An invalid handle sets
errno EBADF but the function still returns 0; a valid handle has its
`file` pointer cleared and its node updated by `closeUpd`. -/
def ramdisk_close (st : RdState) (h : Option Nat) : Int × RdState :=
  match liveFd st h with
  | none => (0, setE st .EBADF)
  | some (i, fd, r) =>
    let st1 := { st with fds := st.fds.set i { fd with file := none } }
    let st2 := { st1 with root := updateNode st1.root r (RdNode.mapCore closeUpd) }
    (0, st2)

/-- `ramdisk_read` (fs_ramdisk.c lines 414-434): fails EBADF on an invalid
or directory handle; otherwise copies `min(requested, size - cursor)`
bytes from the cursor and advances it.  Returns the byte count and the
copied bytes.  A dangling node pointer (live descriptor whose path no
longer resolves) is unreachable; modelled as a NULL-return without errno. -/
def ramdisk_read (st : RdState) (h : Option Nat) (nbytes : Nat) :
    Option (Nat × Bytes) × RdState :=
  match liveFd st h with
  | none => (none, setE st .EBADF)
  | some (i, fd, r) =>
    if fd.dir then (none, setE st .EBADF)
    else
      match getNode st.root r with
      | none => (none, st)
      | some f =>
        let amt := if u32 (fd.ptr + nbytes) > f.core.size
                   then u32 (U32 + f.core.size - fd.ptr) else nbytes
        let out := (f.core.bytes.drop fd.ptr).take amt
        (some (amt, out),
         { st with fds := st.fds.set i { fd with ptr := u32 (fd.ptr + amt) } })

/-- memcpy into a buffer at an offset (the write copy, fs_ramdisk.c line
464).  A copy past the end of the allocation is undefined behaviour in C;
it is modelled as extending the list. -/
def storeAt (data : Bytes) (p : Nat) (buf : Bytes) : Bytes :=
  data.take p ++ buf ++ data.drop (p + buf.length)

/-- realloc to a new capacity: the old contents are preserved up to the new
capacity and any fresh tail is uninitialized memory, modelled as zeros. -/
def resizeTo (data : Bytes) (n : Nat) : Bytes :=
  data.take n ++ List.replicate (n - data.length) 0

/-- `ramdisk_write` (fs_ramdisk.c lines 437-472): fails EBADF on an
invalid, directory, or not-write-locked handle.  When the write would
exceed the allocated capacity the buffer is reallocated to
`cursor + length + 4 * rd_blksize`; `allocOk` is the outcome of that
realloc, and its failure sets ENOSPC leaving everything unchanged.
Otherwise the bytes are stored at the cursor, the cursor advances, and the
size is raised to the cursor when exceeded. -/
def ramdisk_write (st : RdState) (h : Option Nat) (buf : Bytes)
    (allocOk : Bool) : Option Nat × RdState :=
  match liveFd st h with
  | none => (none, setE st .EBADF)
  | some (i, fd, r) =>
    if fd.dir then (none, setE st .EBADF)
    else
      match getNode st.root r with
      | none => (none, st)
      | some f =>
        if f.core.openfor ≠ OPENFOR_WRITE then (none, setE st .EBADF)
        else
          let grow := u32 (fd.ptr + buf.length) > f.core.datasize
          if grow ∧ !allocOk then (none, setE st .ENOSPC)
          else
            let newcap := if grow then u32 (fd.ptr + buf.length + rd_blksize * 4)
                          else f.core.datasize
            let ptr' := u32 (fd.ptr + buf.length)
            (some buf.length,
             { st with
               root := updateNode st.root r (RdNode.mapCore (fun c =>
                 let data' := storeAt (if grow then resizeTo c.bytes newcap else c.bytes)
                                      fd.ptr buf
                 { c with bytes := data', datasize := newcap,
                          size := if c.size < ptr' then ptr' else c.size })),
               fds := st.fds.set i { fd with ptr := ptr' } })

/-- `ramdisk_seek` (fs_ramdisk.c lines 475-525): EBADF on invalid or
directory handles; EINVAL on an unknown whence or on a request that would
drive the position negative; otherwise the position is updated (uint32
arithmetic) and clamped to the file size. -/
def ramdisk_seek (st : RdState) (h : Option Nat) (offset : Int) (whence : Nat) :
    Option Nat × RdState :=
  match liveFd st h with
  | none => (none, setE st .EBADF)
  | some (i, fd, r) =>
    if fd.dir then (none, setE st .EBADF)
    else
      match getNode st.root r with
      | none => (none, st)
      | some f =>
        let newp : Option Nat :=
          if whence = SEEK_SET then
            if offset < 0 then none else some (u32 offset.toNat)
          else if whence = SEEK_CUR then
            if offset < 0 ∧ offset.natAbs > fd.ptr then none
            else some ((((fd.ptr : Int) + offset) % (U32 : Int)).toNat)
          else if whence = SEEK_END then
            if offset < 0 ∧ offset.natAbs > f.core.size then none
            else some ((((f.core.size : Int) + offset) % (U32 : Int)).toNat)
          else none
        match newp with
        | none => (none, setE st .EINVAL)
        | some p =>
          let p' := if p > f.core.size then f.core.size else p
          (some p', { st with fds := st.fds.set i { fd with ptr := p' } })

/-- `ramdisk_total` (fs_ramdisk.c lines 543-555): the node's size, EBADF on
invalid or directory handles. -/
def ramdisk_total (st : RdState) (h : Option Nat) : Option Nat × RdState :=
  match liveFd st h with
  | none => (none, setE st .EBADF)
  | some (_, fd, r) =>
    if fd.dir then (none, setE st .EBADF)
    else
      match getNode st.root r with
      | none => (none, st)
      | some f => (some f.core.size, st)

/-- The directory-entry snapshot `dirent_t` as filled by `ramdisk_readdir`
(fs_ramdisk.c lines 574-585). -/
structure Dirent where
  name : Bytes
  time : Nat
  attr : Nat
  size : Int
  deriving DecidableEq, Repr

/-- Result of `ramdisk_readdir`: a returned entry, a NULL return with errno
set, or undefined behaviour (a NULL or dangling cursor dereference). -/
inductive ReadRes (α : Type) where
  | ok (a : α)
  | err
  | undef
  deriving DecidableEq, Repr

/-- `ramdisk_readdir` (fs_ramdisk.c lines 558-588): EBADF on an invalid or
non-directory handle.  Otherwise the code dereferences the cursor with no
NULL check: `f = (rd_file_t *)fd->ptr; fd->ptr = (uint32_t)LIST_NEXT(f,
dirlist);` — when the cursor is NULL (empty directory, or past the last
entry) this is undefined behaviour, modelled as `ReadRes.undef`.  On a
valid cursor the entry snapshot is copied out and the cursor advances. -/
def ramdisk_readdir (st : RdState) (h : Option Nat) : ReadRes Dirent × RdState :=
  match liveFd st h with
  | none => (.err, setE st .EBADF)
  | some (i, fd, r) =>
    if !fd.dir then (.err, setE st .EBADF)
    else
      match getNode st.root r with
      | none => (.undef, st)
      | some d =>
        match fd.dcur with
        | none => (.undef, st)
        | some nm =>
          match findExact d.children nm with
          | none => (.undef, st)
          | some f =>
            let de : Dirent :=
              { name := f.core.name, time := 0,
                attr := if f.core.isdir then O_DIR else 0,
                size := if f.core.isdir then -1 else (f.core.size : Int) }
            (.ok de,
             { st with fds := st.fds.set i { fd with dcur := nextAfter nm d.children } })

/-- `ramdisk_unlink` (fs_ramdisk.c lines 590-623): resolve the path (file
expectation), ENOENT when absent, EBUSY when the usage count is non-zero,
otherwise remove the node from its parent's child list. -/
def ramdisk_unlink (st : RdState) (fn : Bytes) : Int × RdState :=
  match ramdisk_find_path st.root fn false with
  | none => (-1, setE st .ENOENT)
  | some (r, f) =>
    if f.core.usage ≠ 0 then (-1, setE st .EBUSY)
    else
      match r.getLast? with
      | none => (-1, st)  -- unreachable: a file lookup returns a non-empty path
      | some nm =>
        let g : RdNode → RdNode := fun d => .mk d.core (removeChild nm d.children)
        (0, { st with root := updateNode st.root r.dropLast g })

/-- POSIX mode bit S_IFDIR. -/
def S_IFDIR : Nat := 16384
/-- POSIX mode bit S_IFREG. -/
def S_IFREG : Nat := 32768
/-- POSIX permission bits rwx for the owner. -/
def S_IRWXU : Nat := 448
/-- POSIX permission bits rwx for the group. -/
def S_IRWXG : Nat := 56
/-- POSIX permission bits rwx for others. -/
def S_IRWXO : Nat := 7
/-- POSIX permission bit: owner read. -/
def S_IRUSR : Nat := 256
/-- POSIX permission bit: owner write. -/
def S_IWUSR : Nat := 128
/-- POSIX permission bit: owner execute. -/
def S_IXUSR : Nat := 64
/-- POSIX permission bit: group read. -/
def S_IRGRP : Nat := 32
/-- POSIX permission bit: group write. -/
def S_IWGRP : Nat := 16
/-- POSIX permission bit: group execute. -/
def S_IXGRP : Nat := 8
/-- POSIX permission bit: others read. -/
def S_IROTH : Nat := 4
/-- POSIX permission bit: others write. -/
def S_IWOTH : Nat := 2
/-- POSIX permission bit: others execute. -/
def S_IXOTH : Nat := 1

/-- The device identifier rd_dev (fs_ramdisk.c line 109). -/
def rd_dev : Nat := 114 + 97 * 256 + 109 * 65536

/-- `__align_up(x, a)` for the power-of-two block size: round up to a
multiple of `a`. -/
def alignUp (x a : Nat) : Nat := (x + a - 1) / a * a

/-- The fields of `struct stat` the driver fills (the rest are zeroed). -/
structure StatRec where
  st_dev : Nat
  st_mode : Nat
  st_size : Int
  st_nlink : Nat
  st_blksize : Nat
  st_blocks : Nat
  deriving DecidableEq, Repr

/-- `ramdisk_stat` (fs_ramdisk.c lines 636-675): the empty path and the
single slash report a synthetic root record; otherwise the path is
resolved with a file expectation and the record is filled from the node.
Note `st_size` is filled from `datasize` (the allocated capacity), cast to
int, and -1 for directories. -/
def ramdisk_stat (st : RdState) (path : Bytes) : Option StatRec × RdState :=
  if path = [] ∨ path = [47] then
    (some { st_dev := rd_dev,
            st_mode := S_IFDIR ||| S_IRWXU ||| S_IRWXG ||| S_IRWXO,
            st_size := -1, st_nlink := 2, st_blksize := 0, st_blocks := 0 }, st)
  else
    match ramdisk_find_path st.root path false with
    | none => (none, setE st .ENOENT)
    | some (_, f) =>
      (some { st_dev := rd_dev,
              st_mode := (S_IRUSR ||| S_IWUSR ||| S_IRGRP ||| S_IWGRP |||
                          S_IROTH ||| S_IWOTH) |||
                         (if f.core.isdir then S_IFDIR ||| S_IXUSR ||| S_IXGRP ||| S_IXOTH
                          else S_IFREG),
              st_size := if f.core.isdir then -1 else i32 f.core.datasize,
              st_nlink := if f.core.isdir then 2 else 1,
              st_blksize := rd_blksize,
              st_blocks := alignUp f.core.datasize rd_blksize / rd_blksize }, st)

/-- `ramdisk_fstat` (fs_ramdisk.c lines 722-748): EBADF on an invalid
handle (directory handles are accepted); the record is filled from the
node, again with `st_size` taken from `datasize` and -1 for directories
(and, unlike `ramdisk_stat`, no execute bits for directories). -/
def ramdisk_fstat (st : RdState) (h : Option Nat) : Option StatRec × RdState :=
  match liveFd st h with
  | none => (none, setE st .EBADF)
  | some (_, _, r) =>
    match getNode st.root r with
    | none => (none, st)
    | some f =>
      (some { st_dev := rd_dev,
              st_mode := (S_IRUSR ||| S_IWUSR ||| S_IRGRP ||| S_IWGRP |||
                          S_IROTH ||| S_IWOTH) |||
                         (if f.core.isdir then S_IFDIR else S_IFREG),
              st_size := if f.core.isdir then -1 else i32 f.core.datasize,
              st_nlink := if f.core.isdir then 2 else 1,
              st_blksize := rd_blksize,
              st_blocks := alignUp f.core.datasize rd_blksize / rd_blksize }, st)

/-- `fs_ramdisk_attach` (fs_ramdisk.c lines 795-817): open the path for
write+truncate (creating it), replace the freshly allocated block by the
caller's buffer verbatim (capacity and size become the caller's size), and
close the handle.  Fails (-1) when the open fails. -/
def fs_ramdisk_attach (st : RdState) (fn : Bytes) (obj : Bytes) : Int × RdState :=
  match ramdisk_open st fn (O_WRONLY ||| O_TRUNC) with
  | (none, st1) => (-1, st1)
  | (some i, st1) =>
    match liveFd st1 (some i) with
    | none => (-1, st1)  -- unreachable: open just returned this handle
    | some (_, _, r) =>
      let st2 := { st1 with root := updateNode st1.root r (RdNode.mapCore (fun c =>
        { c with bytes := obj, datasize := obj.length, size := obj.length })) }
      let (_, st3) := ramdisk_close st2 (some i)
      (0, st3)

/-- `fs_ramdisk_detach` (fs_ramdisk.c lines 820-851): open the path
read-only, hand the node's buffer and size to the caller, replace them by
an empty placeholder, close the handle, then unlink the path.  The result
of the final `ramdisk_unlink` is ignored: the function returns 0 whenever
the open succeeded.  Fails (`none`, the -1 return) only when the open
fails. -/
def fs_ramdisk_detach (st : RdState) (fn : Bytes) : Option (Bytes × Nat) × RdState :=
  match ramdisk_open st fn O_RDONLY with
  | (none, st1) => (none, st1)
  | (some i, st1) =>
    match liveFd st1 (some i) with
    | none => (none, st1)  -- unreachable: open just returned this handle
    | some (_, _, r) =>
      match getNode st1.root r with
      | none => (none, st1)  -- unreachable
      | some f =>
        let result := (f.core.bytes, f.core.size)
        let st2 := { st1 with root := updateNode st1.root r (RdNode.mapCore (fun c =>
          { c with bytes := [], datasize := 0, size := 0 })) }
        let (_, st3) := ramdisk_close st2 (some i)
        let (_, st4) := ramdisk_unlink st3 fn
        (some result, st4)

/-- The state produced by `fs_ramdisk_init` (fs_ramdisk.c lines 854-893,
allocations succeeding): an empty root directory, an empty descriptor
list, errno untouched. -/
def initState : RdState :=
  { root := .mk { name := [47], size := 0, isdir := true, openfor := OPENFOR_NOTHING,
                  usage := 0, bytes := [], datasize := 0 } [],
    fds := [], errno := none }

/-! ### Generic lemmas about the node store -/

/-- A node update that does not rename keeps the name after `updateNode`. -/
theorem updateNode_core_name (g : RdNode → RdNode)
    (hg : ∀ n, (g n).core.name = n.core.name) :
    ∀ (r : List Bytes) (c : RdNode), (updateNode c r g).core.name = c.core.name := by
  intro r c
  cases r with
  | nil => exact hg c
  | cons nm rest => rfl

/-- Updating the first child with a given name, by a function that does not
rename, is transparent to an exact-name lookup of that name. -/
theorem findExact_updChild (nm : Bytes) (g : RdNode → RdNode)
    (hg : ∀ n, (g n).core.name = n.core.name) :
    ∀ ns, findExact (updChild nm g ns) nm = (findExact ns nm).map g := by
  intro ns
  induction ns with
  | nil => rfl
  | cons n rest ih =>
    by_cases h : n.core.name = nm
    · simp [updChild, findExact, h, hg n]
    · simp [updChild, findExact, h, ih]

/-- Updating the first child with one name leaves exact-name lookups of
other names unchanged, provided the update does not rename. -/
theorem findExact_updChild_ne (nm nm' : Bytes) (g : RdNode → RdNode)
    (hg : ∀ n, (g n).core.name = n.core.name) (hne : nm' ≠ nm) :
    ∀ ns, findExact (updChild nm g ns) nm' = findExact ns nm' := by
  intro ns
  induction ns with
  | nil => rfl
  | cons n rest ih =>
    by_cases h : n.core.name = nm
    · simp [updChild, findExact, h, hg n, Ne.symm hne]
    · simp [updChild, findExact, h, ih]

/-- Dereferencing a name-path after mutating through it: the mutation lands
exactly on the dereferenced node (for updates that do not rename). -/
theorem getNode_updateNode (g : RdNode → RdNode)
    (hg : ∀ n, (g n).core.name = n.core.name) :
    ∀ (r : List Bytes) (root : RdNode),
      getNode (updateNode root r g) r = (getNode root r).map g := by
  intro r
  induction r with
  | nil => intro root; rfl
  | cons nm rest ih =>
    intro root
    cases root with
    | mk core cs =>
      have hg' : ∀ n, ((fun c => updateNode c rest g) n).core.name = n.core.name := by
        intro n; exact updateNode_core_name g hg rest n
      simp only [updateNode, getNode, RdNode.children, RdNode.core]
      rw [findExact_updChild nm _ hg' cs]
      cases findExact cs nm with
      | none => rfl
      | some c => simpa using ih c

/-- `RdNode.mapCore` preserves children. -/
theorem mapCore_children (g : RdF → RdF) (n : RdNode) :
    (RdNode.mapCore g n).children = n.children := by
  cases n; rfl

/-- `RdNode.mapCore` acts on the core. -/
theorem mapCore_core (g : RdF → RdF) (n : RdNode) :
    (RdNode.mapCore g n).core = g n.core := by
  cases n; rfl

/-- `getNode_updateNode` specialised to a core-only update that keeps the
name; the hypothesis comes last so `rw` can discharge it afterwards. -/
theorem getNode_updateNode_mapCore (G : RdF → RdF) (r : List Bytes) (root : RdNode)
    (hG : ∀ c, (G c).name = c.name) :
    getNode (updateNode root r (RdNode.mapCore G)) r
      = (getNode root r).map (RdNode.mapCore G) := by
  refine getNode_updateNode _ ?_ r root
  intro n; cases n with
  | mk c cs => simp [RdNode.mapCore, RdNode.core, hG c]

/-- uint32 truncation is the identity below 2^32. -/
theorem u32_eq_of_lt {n : Nat} (h : n < U32) : u32 n = n := Nat.mod_eq_of_lt h

/-- The clamp of the seek bound check is a minimum. -/
theorem clamp_eq_min (a b : Nat) : (if a > b then b else a) = min a b := by
  by_cases hab : a > b <;> simp [hab] <;> omega

/-- The state after storing a new cursor value into descriptor `i`. -/
def cursorAt (st : RdState) (i : Nat) (fd : RdFd) (p : Nat) : RdState :=
  { st with fds := st.fds.set i { fd with ptr := p } }

/-- The case-insensitive name comparison is reflexive. -/
theorem caseEq_refl (a : Bytes) : caseEq a a = true := by
  simp [caseEq]

/-- A slash-free path yields a single piece. -/
theorem splitSlashAux_no_slash (p : Bytes) (hp : (47 : Nat) ∉ p) :
    ∀ acc, splitSlashAux p acc = [acc.reverse ++ p] := by
  induction p with
  | nil => intro acc; simp [splitSlashAux]
  | cons b rest ih =>
    intro acc
    have hb : b ≠ 47 := fun h => hp (h ▸ List.mem_cons_self b rest)
    have hr : (47 : Nat) ∉ rest := fun h => hp (List.mem_cons_of_mem b h)
    simp [splitSlashAux, hb, ih hr]

/-- A slash-free path yields a single piece. -/
theorem splitSlash_no_slash (p : Bytes) (hp : (47 : Nat) ∉ p) :
    splitSlash p = [p] := by
  simpa using splitSlashAux_no_slash p hp []

/-- A slash-free path has no last-slash split. -/
theorem revSplitSlash_no_slash (p : Bytes) (hp : (47 : Nat) ∉ p) :
    revSplitSlash p = none := by
  induction p with
  | nil => rfl
  | cons b rest ih =>
    have hb : b ≠ 47 := fun h => hp (h ▸ List.mem_cons_self b rest)
    have hr : (47 : Nat) ∉ rest := fun h => hp (List.mem_cons_of_mem b h)
    simp [revSplitSlash, ih hr, hb]

/-- Stripping the leading slash of a slash-free path is the identity. -/
theorem stripSlash_no_slash (p : Bytes) (hp : (47 : Nat) ∉ p) :
    stripSlash p = p := by
  cases p with
  | nil => rfl
  | cons b rest =>
    have hb : b ≠ 47 := fun h => hp (h ▸ List.mem_cons_self b rest)
    simp [stripSlash, hb]

/-! ### Concrete scenario states used by several claims -/

/-- A state whose root holds one idle file named "a" (byte 97): created by
a write open (which allocates one fresh block) and closed again.  Its
logical size is 0 while its allocated capacity is `rd_blksize`. -/
def stA : RdState := (ramdisk_close (ramdisk_open initState [97] O_WRONLY).snd (some 0)).snd

/-- The file node stA holds. -/
def fileA : RdNode :=
  .mk { name := [97], size := 0, isdir := false, openfor := OPENFOR_NOTHING,
        usage := 0, bytes := List.replicate rd_blksize 0, datasize := rd_blksize } []

/-- A state whose root holds the files "b" and "a" (in list order), of one
byte each, built by two attach calls. -/
def stTwo : RdState :=
  (fs_ramdisk_attach (fs_ramdisk_attach initState [97] [1]).snd [98] [2]).snd

/-- stTwo with the root directory opened for enumeration (handle 2). -/
def stTwoDir : RdState := (ramdisk_open stTwo [] (O_RDONLY ||| O_DIR)).snd

/-! ### C2 — readdir end-of-directory behaviour (code bug)

The specification (section 4.5) requires end-of-directory to be reported
as a safe "no more entries" result.  `ramdisk_readdir` (fs_ramdisk.c lines
570-572) dereferences the cursor without a NULL check:

  f = (rd_file_t *)fd->ptr;
  fd->ptr = (uint32_t)LIST_NEXT(f, dirlist);

so on an empty directory, or on the call after the last entry has been
returned, `f` is NULL and `LIST_NEXT(f, dirlist)` reads through the NULL
pointer: undefined behaviour instead of the specified end marker.  The
enumeration itself does visit every child exactly once first. -/

/-- C2: on the empty root directory the very first readdir dereferences a
NULL cursor (`ReadRes.undef`); on a two-entry directory the two children
are returned exactly once each, and the third call again dereferences
NULL.  The code never produces the safe "no more entries" result the
claim describes. -/
theorem c2_readdir_end_of_directory_is_undefined :
    (ramdisk_readdir (ramdisk_open initState [] (O_RDONLY ||| O_DIR)).snd (some 0)).fst
      = ReadRes.undef
    ∧ (ramdisk_open stTwo [] (O_RDONLY ||| O_DIR)).fst = some 2
    ∧ (ramdisk_readdir stTwoDir (some 2)).fst
        = ReadRes.ok { name := [98], time := 0, attr := 0, size := 1 }
    ∧ (ramdisk_readdir (ramdisk_readdir stTwoDir (some 2)).snd (some 2)).fst
        = ReadRes.ok { name := [97], time := 0, attr := 0, size := 1 }
    ∧ (ramdisk_readdir
        (ramdisk_readdir (ramdisk_readdir stTwoDir (some 2)).snd (some 2)).snd
        (some 2)).fst = ReadRes.undef := by
  refine ⟨rfl, rfl, rfl, rfl, rfl⟩

/-! ### C3 — stat/fstat size reporting (corrected)

`ramdisk_stat` (fs_ramdisk.c line 669) and `ramdisk_fstat` (line 742) fill
`st_size` with `(int)f->datasize` — the allocated capacity of the buffer —
not with `f->size`, the logical content size the claim (and spec section
4.6) names.  A freshly created empty file has size 0 but capacity 1024 and
is reported as 1024.  The directory half of the claim (size -1) holds. -/

/-- C3 counterexample: the empty file of `stA` has logical size 0, but
both stat (by path) and fstat (by descriptor) report `st_size = 1024`,
its buffer capacity — refuting "size equal to the node's `size` field". -/
theorem c3_stat_size_counterexample :
    (getNode stA.root [[97]]).map (fun f => f.core.size) = some 0
    ∧ (ramdisk_stat stA [97]).fst.map StatRec.st_size = some 1024
    ∧ (ramdisk_fstat (ramdisk_open stA [97] O_RDONLY).snd (some 1)).fst.map
        StatRec.st_size = some 1024 := by
  refine ⟨rfl, rfl, rfl⟩

/-- C3 amended: for every path that resolves to a node, stat reports
`st_size` equal to the node's allocated capacity (`datasize`, as a C int)
for files and -1 for directories; fstat reports the same for every valid
descriptor; and stat on the root path reports -1.  The logical `size`
field is not what is reported. -/
theorem c3_stat_fstat_report_capacity :
    (∀ st path r f, path ≠ [] → path ≠ [47] →
      ramdisk_find_path st.root path false = some (r, f) →
      (ramdisk_stat st path).fst.map StatRec.st_size
        = some (if f.core.isdir then (-1 : Int) else i32 f.core.datasize))
    ∧ (∀ st h i fd r f, liveFd st h = some (i, fd, r) →
      getNode st.root r = some f →
      (ramdisk_fstat st h).fst.map StatRec.st_size
        = some (if f.core.isdir then (-1 : Int) else i32 f.core.datasize))
    ∧ (∀ st, (ramdisk_stat st []).fst.map StatRec.st_size = some (-1)) := by
  refine ⟨?_, ?_, ?_⟩
  · intro st path r f h1 h2 hfind
    have hc : ¬(path = [] ∨ path = [47]) := by
      rintro (h | h) <;> [exact h1 h; exact h2 h]
    simp [ramdisk_stat, hc, hfind]
  · intro st h i fd r f hlive hnode
    simp [ramdisk_fstat, hlive, hnode]
  · intro st
    simp [ramdisk_stat]

/-- C3 witness: the amended statement instantiated on `stA`, its file "a"
(capacity 1024), and a read descriptor for it. -/
theorem c3_stat_fstat_report_capacity_witness :
    (([97] : Bytes) ≠ [] ∧ ([97] : Bytes) ≠ [47]
      ∧ ramdisk_find_path stA.root [97] false = some ([[97]], fileA)
      ∧ (ramdisk_stat stA [97]).fst.map StatRec.st_size
          = some (if fileA.core.isdir then (-1 : Int) else i32 fileA.core.datasize))
    ∧ (ramdisk_stat stA []).fst.map StatRec.st_size = some (-1) :=
  ⟨⟨by decide, by decide, rfl,
    c3_stat_fstat_report_capacity.1 stA [97] [[97]] fileA (by decide) (by decide) rfl⟩,
   c3_stat_fstat_report_capacity.2.2 stA⟩

/-! ### C4 — busy opens and the error-code channel (corrected)

Both exclusivity failures of `ramdisk_open` return NULL without touching
errno: the write-locked gate (fs_ramdisk.c lines 320-321) and the
read-locked gate against a write request (lines 343-344) are bare
`return NULL;` statements, unlike every other failure path in the
function.  The opens do fail as the claim says, but no Busy code reaches
the process error-code channel. -/

/-- The file node of `stA` while write-locked by one live descriptor. -/
def fileAW : RdNode :=
  .mk { name := [97], size := 0, isdir := false, openfor := OPENFOR_WRITE,
        usage := 1, bytes := List.replicate rd_blksize 0, datasize := rd_blksize } []

/-- `stA` with its file "a" opened for write (handle 1). -/
def stW : RdState := (ramdisk_open stA [97] O_WRONLY).snd

/-- The file node of `stA` while read-locked by one live descriptor. -/
def fileAR : RdNode :=
  .mk { name := [97], size := 0, isdir := false, openfor := OPENFOR_READ,
        usage := 1, bytes := List.replicate rd_blksize 0, datasize := rd_blksize } []

/-- `stA` with its file "a" opened for read (handle 1). -/
def stR : RdState := (ramdisk_open stA [97] O_RDONLY).snd

/-- C4 counterexample: with "a" write-locked, a second write open and a
read open both fail (NULL handle) but errno stays untouched (`none`, in
particular not EBUSY); likewise a write open against the read-locked
state.  This refutes the claim that the failures are reported through the
process error-code channel as Busy. -/
theorem c4_busy_open_errno_counterexample :
    ramdisk_open stW [97] O_WRONLY = (none, stW)
    ∧ stW.errno = none
    ∧ ramdisk_open stW [97] O_RDONLY = (none, stW)
    ∧ ramdisk_open stR [97] O_WRONLY = (none, stR)
    ∧ stR.errno = none := by
  refine ⟨rfl, rfl, rfl, rfl, rfl⟩

/-- C4 amended: opening a node that is write-locked fails for every
requested mode, and opening a read-locked node with write intent fails,
but in both cases the failure is only the NULL return: the state —
including the error-code channel — is left exactly as it was. -/
theorem c4_busy_open_returns_null_without_errno :
    (∀ st fn0 mode r f,
      ¬(mode &&& O_DIR ≠ 0 ∧ mode &&& O_MODE_MASK ≠ O_RDONLY) →
      openResolve st (stripSlash fn0) mode (mode &&& O_MODE_MASK) = some (r, f, st) →
      ¬(f.core.isdir = true ∧ mode &&& O_DIR = 0) →
      f.core.openfor = OPENFOR_WRITE →
      ramdisk_open st fn0 mode = (none, st))
    ∧ (∀ st fn0 mode r f,
      ¬(mode &&& O_DIR ≠ 0 ∧ mode &&& O_MODE_MASK ≠ O_RDONLY) →
      openResolve st (stripSlash fn0) mode (mode &&& O_MODE_MASK) = some (r, f, st) →
      ¬(f.core.isdir = true ∧ mode &&& O_DIR = 0) →
      f.core.openfor = OPENFOR_READ →
      (mode &&& O_MODE_MASK &&& O_RDWR ≠ 0 ∨ mode &&& O_MODE_MASK &&& O_WRONLY ≠ 0) →
      ramdisk_open st fn0 mode = (none, st)) := by
  constructor
  · intro st fn0 mode r f hpre hres hdir hw
    simp [ramdisk_open, hpre, hres, hdir, hw]
  · intro st fn0 mode r f hpre hres hdir hr hwintent
    have hmm : mode &&& O_MODE_MASK ≠ O_RDONLY := by
      intro h0
      rcases hwintent with h | h <;>
        simp [h0, O_RDONLY, O_RDWR, O_WRONLY, Nat.zero_and] at h
    have hd0 : mode &&& O_DIR = 0 := by
      by_contra hx; exact hpre ⟨hx, hmm⟩
    have hdf : f.core.isdir = false := by
      cases hb : f.core.isdir
      · rfl
      · exact absurd ⟨hb, hd0⟩ hdir
    have hnw : f.core.openfor ≠ OPENFOR_WRITE := by
      rw [hr]; simp [OPENFOR_READ, OPENFOR_WRITE]
    simp [ramdisk_open, hd0, hres, hdf, hnw, hmm, hwintent, hr]

/-- C4 witness: the amended statement instantiated on the write-locked and
read-locked one-file states. -/
theorem c4_busy_open_returns_null_without_errno_witness :
    (¬((O_WRONLY : Nat) &&& O_DIR ≠ 0 ∧ O_WRONLY &&& O_MODE_MASK ≠ O_RDONLY)
      ∧ openResolve stW (stripSlash [97]) O_WRONLY (O_WRONLY &&& O_MODE_MASK)
          = some ([[97]], fileAW, stW)
      ∧ fileAW.core.openfor = OPENFOR_WRITE
      ∧ ramdisk_open stW [97] O_WRONLY = (none, stW))
    ∧ (openResolve stR (stripSlash [97]) O_WRONLY (O_WRONLY &&& O_MODE_MASK)
          = some ([[97]], fileAR, stR)
      ∧ fileAR.core.openfor = OPENFOR_READ
      ∧ ramdisk_open stR [97] O_WRONLY = (none, stR)) :=
  ⟨⟨by decide, rfl, rfl,
    c4_busy_open_returns_null_without_errno.1 stW [97] O_WRONLY [[97]] fileAW
      (by decide) rfl (by decide) rfl⟩,
   ⟨rfl, rfl,
    c4_busy_open_returns_null_without_errno.2 stR [97] O_WRONLY [[97]] fileAR
      (by decide) rfl (by decide) rfl (by decide)⟩⟩

/-! ### C5 — close on an invalid handle (corrected)

`ramdisk_close` (fs_ramdisk.c lines 388-392) sets errno EBADF for an
invalid handle but then executes `return 0;` — the success return value —
instead of a failure result.  The valid-handle behaviour (decrement, and
lock reset exactly at zero) is as claimed. -/

/-- C5 counterexample: closing the NULL handle sets the bad-handle errno
but returns 0, the success value — refuting "returning a failure
result". -/
theorem c5_close_invalid_returns_success_counterexample :
    (ramdisk_close initState none).fst = 0
    ∧ (ramdisk_close initState none).snd.errno = some Errno.EBADF := by
  exact ⟨rfl, rfl⟩

/-- C5 amended: close on an invalid (NULL, never-issued, or
already-closed) handle sets errno to EBADF but still returns 0; close on
a valid handle returns 0, clears the descriptor's node pointer,
decrements the node's usage count by one and resets its lock state to
Free exactly when the count reaches zero, leaving errno untouched. -/
theorem c5_close_sets_ebadf_but_returns_zero :
    (∀ st h, liveFd st h = none →
      ramdisk_close st h = (0, setE st Errno.EBADF))
    ∧ (∀ st h i fd r f, liveFd st h = some (i, fd, r) →
      getNode st.root r = some f →
      (ramdisk_close st h).fst = 0
      ∧ (ramdisk_close st h).snd.fds = st.fds.set i { fd with file := none }
      ∧ getNode (ramdisk_close st h).snd.root r
          = some (.mk { f.core with
                        usage := f.core.usage - 1,
                        openfor := if f.core.usage - 1 = 0 then OPENFOR_NOTHING
                                   else f.core.openfor } f.children)
      ∧ (ramdisk_close st h).snd.errno = st.errno) := by
  constructor
  · intro st h hinv
    simp [ramdisk_close, hinv]
  · intro st h i fd r f hlive hnode
    have hg : ∀ n, (RdNode.mapCore closeUpd n).core.name = n.core.name := by
      intro n; cases n with
      | mk c cs =>
        by_cases h0 : c.usage - 1 = 0 <;>
          simp [RdNode.mapCore, RdNode.core, closeUpd, h0]
    refine ⟨by simp [ramdisk_close, hlive], by simp [ramdisk_close, hlive], ?_,
      by simp [ramdisk_close, hlive]⟩
    simp only [ramdisk_close, hlive]
    rw [getNode_updateNode (RdNode.mapCore closeUpd) hg r, hnode]
    cases f with
    | mk c cs =>
      by_cases h0 : c.usage - 1 = 0 <;>
        simp [RdNode.mapCore, RdNode.core, RdNode.children, closeUpd, h0]

/-- C5 witness: the amended statement instantiated on the NULL handle and
on the live write descriptor of `stW` (usage 1 dropping to 0, lock reset
to Free). -/
theorem c5_close_sets_ebadf_but_returns_zero_witness :
    (liveFd initState none = none
      ∧ ramdisk_close initState none = (0, setE initState Errno.EBADF))
    ∧ (liveFd stW (some 1)
        = some (1, { file := some [[97]], dir := false, ptr := 0, dcur := none,
                     omode := O_WRONLY }, [[97]])
      ∧ getNode stW.root [[97]] = some fileAW
      ∧ getNode (ramdisk_close stW (some 1)).snd.root [[97]]
          = some (.mk { fileAW.core with
                        usage := fileAW.core.usage - 1,
                        openfor := if fileAW.core.usage - 1 = 0 then OPENFOR_NOTHING
                                   else fileAW.core.openfor } fileAW.children)) :=
  ⟨⟨rfl, c5_close_sets_ebadf_but_returns_zero.1 initState none rfl⟩,
   ⟨rfl, rfl,
    (c5_close_sets_ebadf_but_returns_zero.2 stW (some 1) 1
      { file := some [[97]], dir := false, ptr := 0, dcur := none, omode := O_WRONLY }
      [[97]] fileAW rfl rfl).2.2.1⟩⟩

/-! ### C6 — attach/detach failure propagation (corrected)

Attach and detach do propagate a failing open (fs_ramdisk.c lines
803-804 and 828-829), and detach of a nonexistent path fails ENOENT
through that open.  But detach ignores the result of its final
`ramdisk_unlink` (line 848): when the node still has other live
descriptors the unlink fails EBUSY, yet `fs_ramdisk_detach` returns 0 —
after having already emptied the node's buffer under the live reader. -/

/-- The one-file state of `stTwoA` (file "a" holding [1], via attach) with
an extra live read descriptor (handle 1) on "a". -/
def stDR : RdState :=
  (ramdisk_open (fs_ramdisk_attach initState [97] [1]).snd [97] O_RDONLY).snd

/-- The node of "a" as seen by detach's internal open on `stDR`: content
[1], read-locked, held by two descriptors. -/
def fileDR : RdNode :=
  .mk { name := [97], size := 1, isdir := false, openfor := OPENFOR_READ,
        usage := 2, bytes := [1], datasize := 1 } []

/-- C6 counterexample: detaching "a" from `stDR`, whose node is held by a
live reader, reports success (a returned buffer, the 0 return) even
though the internal unlink failed EBUSY — the errno shows the failure and
the node is still present (with its content gutted).  This refutes the
claim that detach reports failure whenever the piggybacked unlink fails. -/
theorem c6_detach_ignores_busy_unlink_counterexample :
    (fs_ramdisk_detach stDR [97]).fst = some ([1], 1)
    ∧ (fs_ramdisk_detach stDR [97]).snd.errno = some Errno.EBUSY
    ∧ ((getNode (fs_ramdisk_detach stDR [97]).snd.root [[97]]).map
        (fun f => (f.core.usage, f.core.size, f.core.datasize))) = some (1, 0, 0) := by
  refine ⟨rfl, rfl, rfl⟩

/-- C6 amended: attach and detach fail whenever their internal open step
fails (in particular detach of a nonexistent path fails with NotFound),
but detach ignores the result of its final unlink step: whenever its open
succeeds it returns success and hands out the node's buffer and size,
regardless of whether the unlink could remove the node. -/
theorem c6_attach_detach_propagate_only_open_failure :
    (∀ st fn st2, ramdisk_open st fn O_RDONLY = (none, st2) →
      fs_ramdisk_detach st fn = (none, st2))
    ∧ (∀ st fn obj st2, ramdisk_open st fn (O_WRONLY ||| O_TRUNC) = (none, st2) →
      fs_ramdisk_attach st fn obj = (-1, st2))
    ∧ (∀ st fn, stripSlash fn ≠ [] →
      ramdisk_find_path st.root (stripSlash fn) false = none →
      fs_ramdisk_detach st fn = (none, setE st Errno.ENOENT))
    ∧ (∀ st fn i st1 fd r f,
      ramdisk_open st fn O_RDONLY = (some i, st1) →
      liveFd st1 (some i) = some (i, fd, r) →
      getNode st1.root r = some f →
      (fs_ramdisk_detach st fn).fst = some (f.core.bytes, f.core.size)) := by
  have hopenfail : ∀ st fn, stripSlash fn ≠ [] →
      ramdisk_find_path st.root (stripSlash fn) false = none →
      ramdisk_open st fn O_RDONLY = (none, setE st Errno.ENOENT) := by
    intro st fn hfn hfind
    have hd : (O_RDONLY : Nat) &&& O_DIR = 0 := by decide
    simp only [ramdisk_open]
    rw [if_neg (by simp [hd])]
    have hres : openResolve st (stripSlash fn) O_RDONLY (O_RDONLY &&& O_MODE_MASK)
        = none := by
      simp only [openResolve]
      rw [if_neg hfn, (by decide : (decide (O_RDONLY &&& O_DIR ≠ 0)) = false), hfind,
        if_neg (by decide :
          ¬((O_RDONLY &&& O_MODE_MASK ≠ O_RDONLY) ∧ O_RDONLY &&& O_DIR = 0))]
    rw [hres]
  refine ⟨?_, ?_, ?_, ?_⟩
  · intro st fn st2 hopen
    simp [fs_ramdisk_detach, hopen]
  · intro st fn obj st2 hopen
    simp [fs_ramdisk_attach, hopen]
  · intro st fn hfn hfind
    simp [fs_ramdisk_detach, hopenfail st fn hfn hfind]
  · intro st fn i st1 fd r f hopen hlive hnode
    simp [fs_ramdisk_detach, hopen, hlive, hnode]

/-- C6 witness: the amended statement instantiated on a nonexistent path
(detach of "x" from the fresh state fails ENOENT) and on `stDR` (an open
that succeeds makes detach return the node's buffer, here with the unlink
failing busy). -/
theorem c6_attach_detach_propagate_only_open_failure_witness :
    (stripSlash [120] ≠ ([] : Bytes)
      ∧ ramdisk_find_path initState.root (stripSlash [120]) false = none
      ∧ fs_ramdisk_detach initState [120] = (none, setE initState Errno.ENOENT))
    ∧ (ramdisk_open stDR [97] O_RDONLY
        = (some 2, (ramdisk_open stDR [97] O_RDONLY).snd)
      ∧ (fs_ramdisk_detach stDR [97]).fst
          = some (fileDR.core.bytes, fileDR.core.size)) :=
  ⟨⟨by decide, rfl,
    c6_attach_detach_propagate_only_open_failure.2.2.1 initState [120] (by decide) rfl⟩,
   ⟨rfl,
    c6_attach_detach_propagate_only_open_failure.2.2.2 stDR [97] 2
      (ramdisk_open stDR [97] O_RDONLY).snd
      { file := some [[97]], dir := false, ptr := 0, dcur := none, omode := O_RDONLY }
      [[97]] fileDR rfl rfl rfl⟩⟩

/-! ### C10 — read never inspects the open mode (confirmed)

`ramdisk_read` (fs_ramdisk.c lines 419-423) rejects only invalid or
directory handles; the stored `omode` is never consulted, so a descriptor
opened write-only (or append) can be read from. -/

/-- `stW` after writing [7,8] through its write-only descriptor (handle 1). -/
def stWr : RdState := (ramdisk_write stW (some 1) [7, 8] true).snd

/-- `stWr` with the write-only descriptor seeked back to offset 0. -/
def stWrS : RdState := (ramdisk_seek stWr (some 1) 0 SEEK_SET).snd

/-- C10: every read on a live non-directory descriptor succeeds, with no
hypothesis on — and a result independent of — the descriptor's stored
open mode, and errno is untouched; concretely, the write-only descriptor
of `stWrS` (omode O_WRONLY) reads back the bytes it wrote. -/
theorem c10_read_ignores_open_mode :
    (∀ st h i fd r f n, liveFd st h = some (i, fd, r) → fd.dir = false →
      getNode st.root r = some f →
      (ramdisk_read st h n).fst.isSome = true
      ∧ (ramdisk_read st h n).snd.errno = st.errno)
    ∧ (getFd stWrS (some 1)).map RdFd.omode = some O_WRONLY
    ∧ (ramdisk_read stWrS (some 1) 10).fst = some (2, [7, 8]) := by
  refine ⟨?_, rfl, rfl⟩
  intro st h i fd r f n hlive hdir hnode
  constructor <;> simp [ramdisk_read, hlive, hdir, hnode]

/-- C10 witness: the universal part instantiated on the write-only
descriptor of `stWrS`. -/
theorem c10_read_ignores_open_mode_witness :
    liveFd stWrS (some 1)
      = some (1, { file := some [[97]], dir := false, ptr := 0, dcur := none,
                   omode := O_WRONLY }, [[97]])
    ∧ (ramdisk_read stWrS (some 1) 10).fst.isSome = true :=
  ⟨rfl,
   (c10_read_ignores_open_mode.1 stWrS (some 1) 1
     { file := some [[97]], dir := false, ptr := 0, dcur := none, omode := O_WRONLY }
     [[97]]
     (.mk { name := [97], size := 2, isdir := false, openfor := OPENFOR_WRITE,
            usage := 1,
            bytes := storeAt (List.replicate rd_blksize 0) 0 [7, 8],
            datasize := rd_blksize } [])
     10 rfl rfl rfl).1⟩

/-! ### C7 — write growth and no-partial-write (confirmed)

`ramdisk_write` (fs_ramdisk.c lines 449-471): when `cursor + length`
exceeds the capacity the buffer is reallocated to exactly
`cursor + length + 4 * 1024`; a failed realloc sets ENOSPC and changes
nothing; otherwise the bytes land at the cursor, the cursor advances by
the length, and the size is raised to the cursor when exceeded. -/

/-- C7: behaviour of a write on a live write-locked file descriptor, in
the three cases of the claim (growth needed and failing; growth needed
and succeeding; no growth needed), under a no-overflow bound on the
32-bit cursor arithmetic.  The failing-growth case returns ENOSPC with
the state — content, capacity, size and cursor — exactly as before. -/
theorem c7_write_grows_by_four_blocks_or_fails_cleanly :
    ∀ st h i fd r f buf allocOk,
    liveFd st h = some (i, fd, r) → fd.dir = false →
    getNode st.root r = some f → f.core.openfor = OPENFOR_WRITE →
    fd.ptr + buf.length + 4 * rd_blksize < U32 →
    ((fd.ptr + buf.length > f.core.datasize ∧ allocOk = false →
      ramdisk_write st h buf allocOk = (none, setE st Errno.ENOSPC))
    ∧ (fd.ptr + buf.length > f.core.datasize ∧ allocOk = true →
      (ramdisk_write st h buf allocOk).fst = some buf.length
      ∧ getNode (ramdisk_write st h buf allocOk).snd.root r
          = some (.mk { f.core with
              bytes := storeAt (resizeTo f.core.bytes (fd.ptr + buf.length + rd_blksize * 4))
                         fd.ptr buf,
              datasize := fd.ptr + buf.length + rd_blksize * 4,
              size := if f.core.size < fd.ptr + buf.length then fd.ptr + buf.length
                      else f.core.size } f.children)
      ∧ (ramdisk_write st h buf allocOk).snd.fds
          = st.fds.set i { fd with ptr := fd.ptr + buf.length }
      ∧ (ramdisk_write st h buf allocOk).snd.errno = st.errno)
    ∧ (¬(fd.ptr + buf.length > f.core.datasize) →
      (ramdisk_write st h buf allocOk).fst = some buf.length
      ∧ getNode (ramdisk_write st h buf allocOk).snd.root r
          = some (.mk { f.core with
              bytes := storeAt f.core.bytes fd.ptr buf,
              size := if f.core.size < fd.ptr + buf.length then fd.ptr + buf.length
                      else f.core.size } f.children)
      ∧ (ramdisk_write st h buf allocOk).snd.fds
          = st.fds.set i { fd with ptr := fd.ptr + buf.length }
      ∧ (ramdisk_write st h buf allocOk).snd.errno = st.errno)) := by
  intro st h i fd r f buf allocOk hlive hdir hnode hopen hbound
  have hu : u32 (fd.ptr + buf.length) = fd.ptr + buf.length :=
    u32_eq_of_lt (by omega)
  have hu4 : u32 (fd.ptr + buf.length + rd_blksize * 4) = fd.ptr + buf.length + rd_blksize * 4 :=
    u32_eq_of_lt (by simp only [rd_blksize] at hbound ⊢; omega)
  refine ⟨?_, ?_, ?_⟩
  · rintro ⟨hgrow, hak⟩
    subst hak
    simp [ramdisk_write, hlive, hdir, hnode, hopen, hu, hgrow]
  · rintro ⟨hgrow, hak⟩
    subst hak
    refine ⟨by simp [ramdisk_write, hlive, hdir, hnode, hopen, hu, hgrow], ?_,
      by simp [ramdisk_write, hlive, hdir, hnode, hopen, hu, hgrow],
      by simp [ramdisk_write, hlive, hdir, hnode, hopen, hu, hgrow]⟩
    simp [ramdisk_write, hlive, hdir, hnode, hopen, hu, hu4, hgrow]
    rw [getNode_updateNode_mapCore]
    · rw [hnode]
      cases f with
      | mk c cs =>
        have hopen' : c.openfor = OPENFOR_WRITE := hopen
        simp [RdNode.mapCore, RdNode.core, RdNode.children, hgrow, hu, hu4, hopen']
    · intro c; rfl
  · intro hgrow
    refine ⟨by simp [ramdisk_write, hlive, hdir, hnode, hopen, hu, hgrow], ?_,
      by simp [ramdisk_write, hlive, hdir, hnode, hopen, hu, hgrow],
      by simp [ramdisk_write, hlive, hdir, hnode, hopen, hu, hgrow]⟩
    simp [ramdisk_write, hlive, hdir, hnode, hopen, hu, hu4, hgrow]
    rw [getNode_updateNode_mapCore]
    · rw [hnode]
      cases f with
      | mk c cs =>
        have hopen' : c.openfor = OPENFOR_WRITE := hopen
        simp [RdNode.mapCore, RdNode.core, RdNode.children, hgrow, hu, hu4, hopen']
    · intro c; rfl

/-- A state whose file "a" holds two bytes at capacity 2 (via attach) and
is write-opened as handle 1 with cursor 0. -/
def stT : RdState :=
  (ramdisk_open (fs_ramdisk_attach initState [97] [0, 0]).snd [97] O_WRONLY).snd

/-- The file node of `stT`. -/
def fileT : RdNode :=
  .mk { name := [97], size := 2, isdir := false, openfor := OPENFOR_WRITE,
        usage := 1, bytes := [0, 0], datasize := 2 } []

/-- C7 witness: on the write descriptor of `stT` (capacity 2, cursor 0), a
three-byte write with a failing realloc returns ENOSPC leaving the state
untouched, and the same write with a succeeding realloc grows the
capacity to exactly 3 + 4 * 1024. -/
theorem c7_write_grows_by_four_blocks_or_fails_cleanly_witness :
    (liveFd stT (some 1)
      = some (1, { file := some [[97]], dir := false, ptr := 0, dcur := none,
                   omode := O_WRONLY }, [[97]])
      ∧ getNode stT.root [[97]] = some fileT
      ∧ fileT.core.openfor = OPENFOR_WRITE
      ∧ (0 : Nat) + ([5, 6, 7] : Bytes).length > fileT.core.datasize)
    ∧ ramdisk_write stT (some 1) [5, 6, 7] false = (none, setE stT Errno.ENOSPC)
    ∧ getNode (ramdisk_write stT (some 1) [5, 6, 7] true).snd.root [[97]]
        = some (.mk { fileT.core with
            bytes := storeAt (resizeTo fileT.core.bytes
                       (0 + ([5, 6, 7] : Bytes).length + rd_blksize * 4)) 0 [5, 6, 7],
            datasize := 0 + ([5, 6, 7] : Bytes).length + rd_blksize * 4,
            size := if fileT.core.size < 0 + ([5, 6, 7] : Bytes).length
                    then 0 + ([5, 6, 7] : Bytes).length
                    else fileT.core.size } fileT.children) := by
  have base := c7_write_grows_by_four_blocks_or_fails_cleanly stT (some 1) 1
    { file := some [[97]], dir := false, ptr := 0, dcur := none, omode := O_WRONLY }
    [[97]] fileT ([5, 6, 7] : Bytes)
  have hb : (0 : Nat) + ([5, 6, 7] : Bytes).length + 4 * rd_blksize < U32 := by decide
  have hg : (0 : Nat) + ([5, 6, 7] : Bytes).length > fileT.core.datasize := by decide
  refine ⟨⟨rfl, rfl, rfl, hg⟩, ?_, ?_⟩
  · exact (base false rfl rfl rfl rfl hb).1 ⟨hg, rfl⟩
  · exact ((base true rfl rfl rfl rfl hb).2.1 ⟨hg, rfl⟩).2.1

/-! ### C8 — seek failure and clamping (confirmed)

`ramdisk_seek` (fs_ramdisk.c lines 486-524) fails EINVAL exactly when the
whence computation would drive the position negative, and otherwise
clamps the resulting position to the file size (the `if(fd->ptr >
fd->file->size)` bound check). -/

/-- A state whose file "a" holds the three bytes [9,9,9] (via attach) and
is opened for read as handle 1 with cursor 0. -/
def stR3 : RdState :=
  (ramdisk_open (fs_ramdisk_attach initState [97] [9, 9, 9]).snd [97] O_RDONLY).snd

/-- The file node of `stR3`. -/
def fileR3 : RdNode :=
  .mk { name := [97], size := 3, isdir := false, openfor := OPENFOR_READ,
        usage := 1, bytes := [9, 9, 9], datasize := 3 } []

/-- C8: for a live file descriptor whose cursor is within the file and
under a no-overflow bound, seek with each of the three whences fails with
the invalid-offset error exactly when the computed position would be
negative, and otherwise stores and returns the computed position clamped
to the interval from 0 to the file size. -/
theorem c8_seek_fails_iff_negative_else_clamps :
    ∀ st h i fd r f off,
    liveFd st h = some (i, fd, r) → fd.dir = false →
    getNode st.root r = some f →
    fd.ptr ≤ f.core.size → (f.core.size : Int) + off.natAbs < (U32 : Int) →
    ((off < 0 → ramdisk_seek st h off SEEK_SET = (none, setE st Errno.EINVAL))
    ∧ (0 ≤ off → ramdisk_seek st h off SEEK_SET
        = (some (if off.toNat > f.core.size then f.core.size else off.toNat),
           cursorAt st i fd (if off.toNat > f.core.size then f.core.size else off.toNat)))
    ∧ ((fd.ptr : Int) + off < 0 →
        ramdisk_seek st h off SEEK_CUR = (none, setE st Errno.EINVAL))
    ∧ (0 ≤ (fd.ptr : Int) + off → ramdisk_seek st h off SEEK_CUR
        = (some (if ((fd.ptr : Int) + off).toNat > f.core.size then f.core.size
                 else ((fd.ptr : Int) + off).toNat),
           cursorAt st i fd (if ((fd.ptr : Int) + off).toNat > f.core.size then f.core.size
                 else ((fd.ptr : Int) + off).toNat)))
    ∧ ((f.core.size : Int) + off < 0 →
        ramdisk_seek st h off SEEK_END = (none, setE st Errno.EINVAL))
    ∧ (0 ≤ (f.core.size : Int) + off → ramdisk_seek st h off SEEK_END
        = (some (if ((f.core.size : Int) + off).toNat > f.core.size then f.core.size
                 else ((f.core.size : Int) + off).toNat),
           cursorAt st i fd (if ((f.core.size : Int) + off).toNat > f.core.size then f.core.size
                 else ((f.core.size : Int) + off).toNat)))) := by
  intro st h i fd r f off hlive hdir hnode hptr hbound
  refine ⟨?_, ?_, ?_, ?_, ?_, ?_⟩
  · intro hneg
    simp [ramdisk_seek, hlive, hdir, hnode, SEEK_SET, SEEK_CUR, SEEK_END, hneg]
  · intro hpos
    have h1 : ¬off < 0 := not_lt.mpr hpos
    have h2 : u32 off.toNat = off.toNat := u32_eq_of_lt (by omega)
    simp [ramdisk_seek, hlive, hdir, hnode, SEEK_SET, SEEK_CUR, SEEK_END, h1, h2,
      cursorAt]
  · intro hneg
    have h1 : off < 0 ∧ off.natAbs > fd.ptr := by omega
    simp [ramdisk_seek, hlive, hdir, hnode, SEEK_SET, SEEK_CUR, SEEK_END, h1]
  · intro hpos
    have h1 : ¬(off < 0 ∧ off.natAbs > fd.ptr) := by
      rintro ⟨ha, hb⟩; omega
    have h2 : ((fd.ptr : Int) + off) % (U32 : Int) = (fd.ptr : Int) + off :=
      Int.emod_eq_of_lt hpos (by omega)
    simp [ramdisk_seek, hlive, hdir, hnode, SEEK_SET, SEEK_CUR, SEEK_END, h1, h2,
      cursorAt]
  · intro hneg
    have h1 : off < 0 ∧ off.natAbs > f.core.size := by omega
    simp [ramdisk_seek, hlive, hdir, hnode, SEEK_SET, SEEK_CUR, SEEK_END, h1]
  · intro hpos
    have h1 : ¬(off < 0 ∧ off.natAbs > f.core.size) := by
      rintro ⟨ha, hb⟩; omega
    have h2 : ((f.core.size : Int) + off) % (U32 : Int) = (f.core.size : Int) + off :=
      Int.emod_eq_of_lt hpos (by omega)
    simp [ramdisk_seek, hlive, hdir, hnode, SEEK_SET, SEEK_CUR, SEEK_END, h1, h2,
      cursorAt]

/-- C8 witness: on the read descriptor of `stR3` (a three-byte file),
seek(set, -1) fails EINVAL, seek(end, 0) lands exactly on the size 3, and
seek(set, 100) clamps to 3 instead of failing. -/
theorem c8_seek_fails_iff_negative_else_clamps_witness :
    ramdisk_seek stR3 (some 1) (-1) SEEK_SET = (none, setE stR3 Errno.EINVAL)
    ∧ (ramdisk_seek stR3 (some 1) 0 SEEK_END).fst
        = some (if ((fileR3.core.size : Int) + 0).toNat > fileR3.core.size
                then fileR3.core.size else ((fileR3.core.size : Int) + 0).toNat)
    ∧ (ramdisk_seek stR3 (some 1) 100 SEEK_SET).fst
        = some (if (100 : Int).toNat > fileR3.core.size
                then fileR3.core.size else (100 : Int).toNat)
    ∧ (if ((fileR3.core.size : Int) + 0).toNat > fileR3.core.size
       then fileR3.core.size else ((fileR3.core.size : Int) + 0).toNat) = 3
    ∧ (if (100 : Int).toNat > fileR3.core.size
       then fileR3.core.size else (100 : Int).toNat) = 3 := by
  have base := c8_seek_fails_iff_negative_else_clamps stR3 (some 1) 1
    { file := some [[97]], dir := false, ptr := 0, dcur := none, omode := O_RDONLY }
    [[97]] fileR3
  refine ⟨(base (-1) rfl rfl rfl (by decide) (by decide)).1 (by decide),
    ?_, ?_, by decide, by decide⟩
  · rw [(base 0 rfl rfl rfl (by decide) (by decide)).2.2.2.2.2 (by decide)]
  · rw [(base 100 rfl rfl rfl (by decide) (by decide)).2.1 (by decide)]

/-! ### C1 — write/close/read round trip (confirmed)

For a fresh slash-free path, opening write+truncate creates the file,
writing a byte sequence stores it, and after closing and reopening
read-only, a read returns exactly the written bytes and total reports
their length.  The intermediate states are given explicitly. -/

/-- The core of the root node. -/
def rootCore : RdF :=
  { name := [47], size := 0, isdir := true, openfor := OPENFOR_NOTHING,
    usage := 0, bytes := [], datasize := 0 }

/-- Node of path `p` right after a write+truncate open created it:
write-locked, one opener, fresh one-block buffer, size 0. -/
def wNode1 (p : Bytes) : RdNode :=
  .mk { name := p, size := 0, isdir := false, openfor := OPENFOR_WRITE,
        usage := 1, bytes := List.replicate rd_blksize 0, datasize := rd_blksize } []

/-- The write descriptor of `stOne`. -/
def wFd1 (p : Bytes) : RdFd :=
  { file := some [p], dir := false, ptr := 0, dcur := none,
    omode := O_WRONLY ||| O_TRUNC }

/-- State after write+truncate opening the fresh path `p` (handle 0). -/
def stOne (p : Bytes) : RdState :=
  { root := .mk rootCore [wNode1 p], fds := [wFd1 p], errno := none }

/-- Capacity of the buffer after writing `bs` at cursor 0 into a fresh
one-block file: grown to length + four blocks when the block is
exceeded. -/
def wDS (bs : Bytes) : Nat :=
  if bs.length > rd_blksize then bs.length + rd_blksize * 4 else rd_blksize

/-- The bytes that sit after the written data in the buffer. -/
def wTail (bs : Bytes) : Bytes :=
  (if bs.length > rd_blksize then resizeTo (List.replicate rd_blksize 0) (wDS bs)
   else List.replicate rd_blksize 0).drop bs.length

/-- Node of path `p` after writing `bs` at cursor 0. -/
def wNode2 (p bs : Bytes) : RdNode :=
  .mk { name := p, size := bs.length, isdir := false, openfor := OPENFOR_WRITE,
        usage := 1, bytes := bs ++ wTail bs, datasize := wDS bs } []

/-- The write descriptor after the write (cursor advanced). -/
def wFd2 (p bs : Bytes) : RdFd :=
  { file := some [p], dir := false, ptr := bs.length, dcur := none,
    omode := O_WRONLY ||| O_TRUNC }

/-- State after the write. -/
def stWrit (p bs : Bytes) : RdState :=
  { root := .mk rootCore [wNode2 p bs], fds := [wFd2 p bs], errno := none }

/-- Node after closing the writer: unlocked, no openers. -/
def clNode (p bs : Bytes) : RdNode :=
  .mk { name := p, size := bs.length, isdir := false, openfor := OPENFOR_NOTHING,
        usage := 0, bytes := bs ++ wTail bs, datasize := wDS bs } []

/-- State after closing the write descriptor. -/
def stClosed (p bs : Bytes) : RdState :=
  { root := .mk rootCore [clNode p bs],
    fds := [{ wFd2 p bs with file := none }], errno := none }

/-- Node after the read-only reopen: read-locked, one opener. -/
def rdNode2 (p bs : Bytes) : RdNode :=
  .mk { name := p, size := bs.length, isdir := false, openfor := OPENFOR_READ,
        usage := 1, bytes := bs ++ wTail bs, datasize := wDS bs } []

/-- The read descriptor (handle 1). -/
def rdFd2 (p : Bytes) : RdFd :=
  { file := some [p], dir := false, ptr := 0, dcur := none, omode := O_RDONLY }

/-- State after reopening `p` read-only. -/
def stRead (p bs : Bytes) : RdState :=
  { root := .mk rootCore [rdNode2 p bs],
    fds := [{ wFd2 p bs with file := none }, rdFd2 p], errno := none }

/-- C1: the round trip.  For every nonempty slash-free path `p` and byte
sequence `bs` (with no-overflow bounds on the 32-bit arithmetic), a
write+truncate open of `p` creates it (handle 0), writing `bs` through it
stores all of `bs`, closing unlocks, a read-only reopen (handle 1)
succeeds, reading any request of at least `bs` length returns exactly
`bs`, and total on that read descriptor equals the length of `bs`. -/
theorem c1_write_close_read_roundtrip (p bs : Bytes) (req : Nat)
    (hp : p ≠ []) (hps : (47 : Nat) ∉ p)
    (hlen : bs.length + 4 * rd_blksize < U32)
    (hreq : bs.length ≤ req) (hreq2 : req < U32) :
    ramdisk_open initState p (O_WRONLY ||| O_TRUNC) = (some 0, stOne p)
    ∧ ramdisk_write (stOne p) (some 0) bs true = (some bs.length, stWrit p bs)
    ∧ ramdisk_close (stWrit p bs) (some 0) = (0, stClosed p bs)
    ∧ ramdisk_open (stClosed p bs) p O_RDONLY = (some 1, stRead p bs)
    ∧ (ramdisk_read (stRead p bs) (some 1) req).fst = some (bs.length, bs)
    ∧ (ramdisk_total (ramdisk_read (stRead p bs) (some 1) req).snd (some 1)).fst
        = some bs.length := by
  have hstrip := stripSlash_no_slash p hps
  have hsplit := splitSlash_no_slash p hps
  have hrev := revSplitSlash_no_slash p hps
  have hu1 : u32 (0 + bs.length) = bs.length := by
    rw [Nat.zero_add]; exact u32_eq_of_lt (by omega)
  have hu2 : u32 (0 + bs.length + rd_blksize * 4) = bs.length + rd_blksize * 4 := by
    rw [Nat.zero_add]; exact u32_eq_of_lt (by omega)
  have e1 : ramdisk_open initState p (O_WRONLY ||| O_TRUNC) = (some 0, stOne p) := by
    have d1 : (O_WRONLY ||| O_TRUNC) &&& O_DIR = 0 := by decide
    have d2 : (O_WRONLY ||| O_TRUNC) &&& O_MODE_MASK = 1 := by decide
    have d4 : (1 : Nat) &&& O_RDWR = 0 := by decide
    have d5 : (1 : Nat) &&& O_WRONLY = 1 := by decide
    have d6 : (O_WRONLY ||| O_TRUNC) &&& O_APPEND = 0 := by decide
    have d7 : (O_WRONLY ||| O_TRUNC) &&& O_TRUNC = 1024 := by decide
    simp [ramdisk_open, openResolve, hstrip, hsplit, hrev, hp, d1, d2, d4, d5, d6, d7,
      ramdisk_find_path, findPathAux, ramdisk_find, ramdisk_create_file,
      ramdisk_get_parent, getNode, findExact, updateNode, updChild, openFinish,
      RdNode.mapCore, RdNode.core, RdNode.children, initState, stOne, wNode1, wFd1,
      rootCore, accPath, OPENFOR_NOTHING, OPENFOR_READ, OPENFOR_WRITE, O_RDONLY]
  have hu1' : u32 bs.length = bs.length := u32_eq_of_lt (by omega)
  have hu2' : u32 (bs.length + rd_blksize * 4) = bs.length + rd_blksize * 4 :=
    u32_eq_of_lt (by omega)
  have e2 : ramdisk_write (stOne p) (some 0) bs true = (some bs.length, stWrit p bs) := by
    have hsz : (if (0 : Nat) < bs.length then bs.length else 0) = bs.length := by
      split <;> omega
    simp [ramdisk_write, stOne, wNode1, wFd1, liveFd, getNode, findExact, RdNode.core,
      RdNode.children, RdNode.mapCore, updateNode, updChild, stWrit, wNode2, wFd2,
      wDS, wTail, storeAt, rootCore, hu1, hu2, hu1', hu2', hsz, OPENFOR_WRITE]
  have e3 : ramdisk_close (stWrit p bs) (some 0) = (0, stClosed p bs) := by
    simp [ramdisk_close, liveFd, closeUpd, updateNode, updChild, RdNode.mapCore,
      RdNode.core, RdNode.children, stWrit, stClosed, wNode2, wFd2, clNode,
      OPENFOR_NOTHING]
  have e4 : ramdisk_open (stClosed p bs) p O_RDONLY = (some 1, stRead p bs) := by
    have hce := caseEq_refl p
    have d1 : (O_RDONLY : Nat) &&& O_DIR = 0 := by decide
    have d2 : (O_RDONLY : Nat) &&& O_MODE_MASK = 0 := by decide
    simp [ramdisk_open, openResolve, hstrip, hsplit, hp, hce, d1, d2,
      ramdisk_find_path, findPathAux, ramdisk_find, accPath, getNode, findExact,
      updateNode, updChild, openFinish, RdNode.mapCore, RdNode.core, RdNode.children,
      stClosed, clNode, stRead, rdNode2, rdFd2, wFd2, O_RDONLY,
      OPENFOR_NOTHING, OPENFOR_READ, OPENFOR_WRITE]
  have h0 : u32 (0 + req) = req := by
    rw [Nat.zero_add]; exact u32_eq_of_lt hreq2
  have hlb : bs.length < U32 := by omega
  have hwrap : u32 (U32 + bs.length) = bs.length := by
    simp only [u32, U32] at hlb ⊢
    omega
  have hu3 : u32 req = req := u32_eq_of_lt hreq2
  have e5 : (ramdisk_read (stRead p bs) (some 1) req).fst = some (bs.length, bs) := by
    rcases eq_or_lt_of_le hreq with heq | hlt
    · rw [← heq]
      simp [ramdisk_read, liveFd, stRead, rdFd2, rdNode2, getNode, findExact,
        RdNode.core, RdNode.children, hu1', List.take_left]
    · simp [ramdisk_read, liveFd, stRead, rdFd2, rdNode2, getNode, findExact,
        RdNode.core, RdNode.children, hu3, hlt, hwrap, List.take_left]
  have e6 : (ramdisk_total (ramdisk_read (stRead p bs) (some 1) req).snd (some 1)).fst
      = some bs.length := by
    simp [ramdisk_read, ramdisk_total, liveFd, stRead, rdFd2, rdNode2, getNode,
      findExact, RdNode.core, RdNode.children]
  exact ⟨e1, e2, e3, e4, e5, e6⟩

/-- C1 witness: the round trip instantiated on path "a" and bytes
[1, 2, 3] with a read request of 3. -/
theorem c1_write_close_read_roundtrip_witness :
    (([97] : Bytes) ≠ [] ∧ (47 : Nat) ∉ ([97] : Bytes)
      ∧ ([1, 2, 3] : Bytes).length + 4 * rd_blksize < U32
      ∧ ([1, 2, 3] : Bytes).length ≤ 3 ∧ (3 : Nat) < U32)
    ∧ (ramdisk_read (stRead [97] [1, 2, 3]) (some 1) 3).fst
        = some (([1, 2, 3] : Bytes).length, [1, 2, 3])
    ∧ (ramdisk_total (ramdisk_read (stRead [97] [1, 2, 3]) (some 1) 3).snd
        (some 1)).fst = some ([1, 2, 3] : Bytes).length :=
  ⟨⟨by decide, by decide, by decide, by decide, by decide⟩,
   (c1_write_close_read_roundtrip [97] [1, 2, 3] 3 (by decide) (by decide)
     (by decide) (by decide) (by decide)).2.2.2.2.1,
   (c1_write_close_read_roundtrip [97] [1, 2, 3] 3 (by decide) (by decide)
     (by decide) (by decide) (by decide)).2.2.2.2.2⟩

/-! ### C9 — reader sharing and the usage-count invariant (confirmed)

The invariant part is stated over well-formed states: in every reachable
tree shape (the root directory with file children — no operation creates
subdirectories), every node's `usage` equals the number of live
descriptors referencing it, and `openfor` is Free exactly when `usage` is
zero.  We prove the invariant holds initially and is preserved by
`ramdisk_open` and `ramdisk_close`, and prove the concrete
reader-sharing scenario. -/

/-- Number of live descriptors referencing the node at name-path `r`. -/
def liveRefs (st : RdState) (r : List Bytes) : Nat :=
  (st.fds.filter (fun fd => fd.file == some r)).length

/-- The reachable tree shape: the root is a directory and all its
children are leaf files. -/
def Flat (st : RdState) : Prop :=
  st.root.core.isdir = true
  ∧ ∀ c ∈ st.root.children, c.core.isdir = false ∧ c.children = []

/-- Every live descriptor's node pointer dereferences. -/
def RefsOk (st : RdState) : Prop :=
  ∀ fd ∈ st.fds, ∀ r, fd.file = some r → (getNode st.root r).isSome = true

/-- The usage-count/lock invariant of the claim: every node's usage count
equals the number of live descriptors holding it, and the lock state is
Free exactly when that count is zero. -/
def UsageInv (st : RdState) : Prop :=
  ∀ r f, getNode st.root r = some f →
    f.core.usage = (liveRefs st r : Int)
    ∧ (f.core.usage = 0 ↔ f.core.openfor = OPENFOR_NOTHING)

/-- Well-formedness: the reachable shape plus the claim's invariant. -/
def WFInv (st : RdState) : Prop := Flat st ∧ RefsOk st ∧ UsageInv st

/-- A found node is a member of the directory. -/
theorem ramdisk_find_mem {ns : List RdNode} {nm : Bytes} {f : RdNode}
    (h : ramdisk_find ns nm = some f) : f ∈ ns := by
  induction ns with
  | nil => simp [ramdisk_find] at h
  | cons n rest ih =>
    by_cases hc : caseEq nm n.core.name
    · simp [ramdisk_find, hc] at h
      exact h ▸ List.mem_cons_self n rest
    · simp [ramdisk_find, hc] at h
      exact List.mem_cons_of_mem n (ih h)

/-- A found node matched the searched name case-insensitively. -/
theorem ramdisk_find_caseEq {ns : List RdNode} {nm : Bytes} {f : RdNode}
    (h : ramdisk_find ns nm = some f) : caseEq nm f.core.name = true := by
  induction ns with
  | nil => simp [ramdisk_find] at h
  | cons n rest ih =>
    by_cases hc : caseEq nm n.core.name
    · simp [ramdisk_find, hc] at h
      exact h ▸ hc
    · simp [ramdisk_find, hc] at h
      exact ih h

/-- The node `ramdisk_find` returns is also the first exact-name match of
its own stored name: dereferencing the recorded name-path lands on the
same node the search found. -/
theorem findExact_of_find {ns : List RdNode} {nm : Bytes} {f : RdNode}
    (h : ramdisk_find ns nm = some f) : findExact ns f.core.name = some f := by
  induction ns with
  | nil => simp [ramdisk_find] at h
  | cons n rest ih =>
    by_cases hc : caseEq nm n.core.name
    · simp [ramdisk_find, hc] at h
      simp [findExact, h]
    · simp [ramdisk_find, hc] at h
      have hne : n.core.name ≠ f.core.name := by
        intro he
        exact hc (he ▸ ramdisk_find_caseEq h)
      simp [findExact, hne, ih h]

/-- If the case-insensitive search fails, so does the exact one. -/
theorem findExact_none_of_find_none {ns : List RdNode} {nm : Bytes}
    (h : ramdisk_find ns nm = none) : findExact ns nm = none := by
  induction ns with
  | nil => rfl
  | cons n rest ih =>
    by_cases hc : caseEq nm n.core.name
    · simp [ramdisk_find, hc] at h
    · simp [ramdisk_find, hc] at h
      have hne : n.core.name ≠ nm := by
        intro he
        rw [← he] at hc
        exact hc (caseEq_refl _)
      simp [findExact, hne, ih h]

/-- Over a directory of leaf files, a lookup that expects a directory
always fails. -/
theorem flat_findPathAux_dir {ns : List RdNode}
    (hflat : ∀ n ∈ ns, n.core.isdir = false) :
    ∀ comps, findPathAux ns true none comps = none := by
  intro comps
  induction comps with
  | nil => rfl
  | cons c rest ih =>
    cases rest with
    | nil =>
      by_cases hc : c = []
      · simp [findPathAux, hc]
      · simp only [findPathAux]
        rw [if_neg hc]
        cases hfind : ramdisk_find ns c with
        | none => rfl
        | some f =>
          have := hflat f (ramdisk_find_mem hfind)
          simp [this]
    | cons c2 rest2 =>
      by_cases hc : c = []
      · simpa [findPathAux, hc] using ih
      · simp only [findPathAux]
        rw [if_neg hc]
        cases hfind : ramdisk_find ns c with
        | none => rfl
        | some f =>
          have := hflat f (ramdisk_find_mem hfind)
          simp [this]

/-- Over a directory of leaf files, a file lookup either fails or returns
a leaf file under the one-segment name-path of its exact stored name. -/
theorem flat_findPathAux_file {ns : List RdNode}
    (hflat : ∀ n ∈ ns, n.core.isdir = false) :
    ∀ comps, findPathAux ns false none comps = none
      ∨ ∃ f, findPathAux ns false none comps = some ([f.core.name], f)
          ∧ findExact ns f.core.name = some f ∧ f.core.isdir = false := by
  intro comps
  induction comps with
  | nil => exact Or.inl rfl
  | cons c rest ih =>
    cases rest with
    | nil =>
      by_cases hc : c = []
      · exact Or.inl (by simp [findPathAux, hc])
      · simp only [findPathAux]
        rw [if_neg hc]
        cases hfind : ramdisk_find ns c with
        | none => exact Or.inl rfl
        | some f =>
          have hd := hflat f (ramdisk_find_mem hfind)
          refine Or.inr ⟨f, ?_, findExact_of_find hfind, hd⟩
          simp [hd, accPath]
    | cons c2 rest2 =>
      by_cases hc : c = []
      · simpa [findPathAux, hc] using ih
      · simp only [findPathAux]
        rw [if_neg hc]
        cases hfind : ramdisk_find ns c with
        | none => exact Or.inl rfl
        | some f =>
          have := hflat f (ramdisk_find_mem hfind)
          simp [this]

/-- A member of `findExact`'s result list. -/
theorem findExact_mem {ns : List RdNode} {nm : Bytes} {f : RdNode}
    (h : findExact ns nm = some f) : f ∈ ns := by
  induction ns with
  | nil => simp [findExact] at h
  | cons n rest ih =>
    by_cases hn : n.core.name = nm
    · simp [findExact, hn] at h
      exact h ▸ List.mem_cons_self n rest
    · simp [findExact, hn] at h
      exact List.mem_cons_of_mem n (ih h)

/-- The exact name found is the searched one. -/
theorem findExact_name {ns : List RdNode} {nm : Bytes} {f : RdNode}
    (h : findExact ns nm = some f) : f.core.name = nm := by
  induction ns with
  | nil => simp [findExact] at h
  | cons n rest ih =>
    by_cases hn : n.core.name = nm
    · simp [findExact, hn] at h
      exact h ▸ hn
    · simp [findExact, hn] at h
      exact ih h

/-- In a flat tree, a dereferenceable name-path is the root itself or a
single segment naming a child. -/
theorem flat_getNode_shape {st : RdState}
    (hflat : ∀ c ∈ st.root.children, c.children = []) :
    ∀ r f, getNode st.root r = some f →
      (r = [] ∧ f = st.root)
      ∨ ∃ nm, r = [nm] ∧ findExact st.root.children nm = some f := by
  intro r f hget
  match r with
  | [] =>
    left
    simp [getNode] at hget
    exact ⟨rfl, hget.symm⟩
  | [nm] =>
    right
    refine ⟨nm, rfl, ?_⟩
    simp only [getNode] at hget
    cases hfe : findExact st.root.children nm with
    | none => rw [hfe] at hget; exact absurd hget (by simp)
    | some c =>
      rw [hfe] at hget
      have hcf : c = f := by simpa [getNode] using hget
      rw [hcf]
  | nm :: nm2 :: rest =>
    exfalso
    simp only [getNode] at hget
    cases hfe : findExact st.root.children nm with
    | none => rw [hfe] at hget; exact absurd hget (by simp)
    | some c =>
      rw [hfe] at hget
      have hc0 : c.children = [] := hflat c (findExact_mem hfe)
      simp only [getNode, hc0, findExact] at hget
      exact absurd hget (by simp)

/-- Setting one list cell, counted through a filter. -/
theorem filter_length_set {α : Type} (p : α → Bool) :
    ∀ (l : List α) (i : Nat) (a b : α), l[i]? = some b →
    ((l.set i a).filter p).length + (if p b then 1 else 0)
      = (l.filter p).length + (if p a then 1 else 0) := by
  intro l
  induction l with
  | nil => intro i a b h; simp at h
  | cons x rest ih =>
    intro i a b h
    cases i with
    | zero =>
      have hxb : x = b := by simpa using h
      subst hxb
      by_cases hx : p x <;> by_cases ha : p a <;>
        simp [List.set, List.filter_cons, hx, ha]
    | succ j =>
      have h' : rest[j]? = some b := by simpa using h
      have := ih j a b h'
      by_cases hx : p x <;> simp [List.set, List.filter_cons, hx] <;> omega

/-- Pointwise-equal updates act identically on a child list. -/
theorem updChild_congr (nm : Bytes) (G1 G2 : RdNode → RdNode)
    (h : ∀ n, G1 n = G2 n) : ∀ ns, updChild nm G1 ns = updChild nm G2 ns := by
  intro ns
  induction ns with
  | nil => rfl
  | cons n rest ih =>
    by_cases hn : n.core.name = nm
    · simp [updChild, hn, h n]
    · simp [updChild, hn, ih]

/-- Composing two first-match child updates with the same name (the first
of which does not rename). -/
theorem updChild_updChild (nm : Bytes) (F1 F2 : RdNode → RdNode)
    (hF1 : ∀ n, (F1 n).core.name = n.core.name) :
    ∀ ns, updChild nm F2 (updChild nm F1 ns) = updChild nm (fun n => F2 (F1 n)) ns := by
  intro ns
  induction ns with
  | nil => rfl
  | cons n rest ih =>
    by_cases h : n.core.name = nm
    · simp [updChild, h, hF1 n]
    · simp [updChild, h, ih]

/-- Composing two mutations through the same name-path (the first of
which does not rename). -/
theorem updateNode_updateNode (g1 g2 : RdNode → RdNode)
    (hg1 : ∀ n, (g1 n).core.name = n.core.name) :
    ∀ (r : List Bytes) (root : RdNode),
      updateNode (updateNode root r g1) r g2 = updateNode root r (fun n => g2 (g1 n)) := by
  intro r
  induction r with
  | nil => intro root; rfl
  | cons nm rest ih =>
    intro root
    cases root with
    | mk core cs =>
      have hF1 : ∀ n, ((fun c => updateNode c rest g1) n).core.name = n.core.name :=
        fun n => updateNode_core_name g1 hg1 rest n
      simp only [updateNode, RdNode.core, RdNode.children]
      rw [updChild_updChild nm _ _ hF1 cs]
      exact congrArg (RdNode.mk core) (updChild_congr nm _ _ (fun c => ih c) cs)

/-- Composing two core updates. -/
theorem mapCore_mapCore (g1 g2 : RdF → RdF) (n : RdNode) :
    RdNode.mapCore g2 (RdNode.mapCore g1 n) = RdNode.mapCore (fun c => g2 (g1 c)) n := by
  cases n; rfl

/-- A core update of the root is invisible to non-empty name-paths. -/
theorem getNode_mapCore_cons (g : RdF → RdF) (root : RdNode) (nm : Bytes)
    (rest : List Bytes) :
    getNode (RdNode.mapCore g root) (nm :: rest) = getNode root (nm :: rest) := by
  cases root
  simp [getNode, RdNode.mapCore, RdNode.children]

/-- A single-segment mutation is invisible to name-paths starting with a
different segment. -/
theorem getNode_updateNode_single_other (nm nm' : Bytes) (hne : nm' ≠ nm)
    (g : RdNode → RdNode) (hg : ∀ n, (g n).core.name = n.core.name)
    (root : RdNode) (rest : List Bytes) :
    getNode (updateNode root [nm] g) (nm' :: rest) = getNode root (nm' :: rest) := by
  cases root with
  | mk core cs =>
    simp only [updateNode, getNode, RdNode.children]
    rw [findExact_updChild_ne nm nm' _ (fun n => hg n) hne cs]

/-- The core of a node after a single-segment mutation. -/
theorem updateNode_cons_core (nm : Bytes) (g : RdNode → RdNode) (root : RdNode)
    (rest : List Bytes) :
    (updateNode root (nm :: rest) g).core = root.core := by
  cases root; rfl

/-- The children of a node after a single-segment mutation. -/
theorem updateNode_single_children (nm : Bytes) (g : RdNode → RdNode) (root : RdNode) :
    (updateNode root [nm] g).children
      = updChild nm (fun c => updateNode c [] g) root.children := by
  cases root; rfl

/-- Rebuilding a node from its projections. -/
theorem RdNode.eta (n : RdNode) : RdNode.mk n.core n.children = n := by
  cases n; rfl

/-- Appending one descriptor, counted through a filter. -/
theorem filter_ref_append (fds : List RdFd) (fd : RdFd) (p : RdFd → Bool) :
    ((fds ++ [fd]).filter p).length = (fds.filter p).length + (if p fd then 1 else 0) := by
  rw [List.filter_append]
  cases h : p fd <;> simp [List.filter_cons, h]

/-- A filter over elements that all fail the predicate is empty. -/
theorem filter_len_zero {α : Type} (p : α → Bool) :
    ∀ (l : List α), (∀ a ∈ l, p a = false) → (l.filter p).length = 0 := by
  intro l
  induction l with
  | nil => intro _; rfl
  | cons x rest ih =>
    intro h
    have hx := h x (List.mem_cons_self x rest)
    simp only [List.filter_cons, hx, Bool.false_eq_true, if_false]
    exact ih (fun a ha => h a (List.mem_cons_of_mem x ha))

/-- A member satisfying the predicate makes the filtered length positive. -/
theorem filter_len_pos {α : Type} (p : α → Bool) (l : List α) (a : α)
    (hm : a ∈ l) (hp : p a = true) : 0 < (l.filter p).length :=
  List.length_pos.mpr (List.ne_nil_of_mem (List.mem_filter.mpr ⟨hm, hp⟩))

/-- An indexed cell is a member. -/
theorem mem_of_getElem? {α : Type} : ∀ {l : List α} {i : Nat} {a : α},
    l[i]? = some a → a ∈ l := by
  intro l
  induction l with
  | nil => intro i a h; simp at h
  | cons x rest ih =>
    intro i a h
    cases i with
    | zero =>
      have : x = a := by simpa using h
      subst this
      exact List.mem_cons_self x rest
    | succ j =>
      have h' : rest[j]? = some a := by simpa using h
      exact List.mem_cons_of_mem x (ih h')

/-- Skipping a non-matching head in an exact-name search. -/
theorem findExact_cons_ne (n : RdNode) (ns : List RdNode) (nm : Bytes)
    (h : n.core.name ≠ nm) : findExact (n :: ns) nm = findExact ns nm := by
  simp [findExact, h]

/-- Dereferencing below the root ignores the root's core. -/
theorem getNode_cons_eq (a b : RdF) (cs : List RdNode) (nm : Bytes)
    (rest : List Bytes) :
    getNode (.mk a cs) (nm :: rest) = getNode (.mk b cs) (nm :: rest) := rfl

/-- Inserting a child is invisible to name-paths starting with a
different segment. -/
theorem getNode_insert_other (core : RdF) (x : RdNode) (cs : List RdNode)
    (nm : Bytes) (rest : List Bytes) (h : x.core.name ≠ nm) :
    getNode (.mk core (x :: cs)) (nm :: rest) = getNode (.mk core cs) (nm :: rest) := by
  simp only [getNode, RdNode.children]
  rw [findExact_cons_ne x cs nm h]

/-- The node `ramdisk_create_file` allocates for a file (fs_ramdisk.c
lines 241-254 with `dir = false`). -/
def freshFile (fn : Bytes) : RdNode :=
  .mk { name := fn, size := 0, isdir := false, openfor := OPENFOR_NOTHING, usage := 0,
        bytes := List.replicate rd_blksize 0, datasize := rd_blksize } []

/-- `liveRefs` ignores the tree. -/
theorem liveRefs_root_irrel (st : RdState) (root' : RdNode) (r : List Bytes) :
    liveRefs { st with root := root' } r = liveRefs st r := rfl

/-- Inserting a fresh file at the head of the root directory preserves
well-formedness, provided the name was absent. -/
theorem insert_preserves (st : RdState) (hflat : Flat st) (hrefs : RefsOk st)
    (hinv : UsageInv st) (fn : Bytes)
    (hnone : findExact st.root.children fn = none) :
    WFInv { st with root := .mk st.root.core (freshFile fn :: st.root.children) } := by
  obtain ⟨root0, fds0, errno0⟩ := st
  cases root0 with
  | mk core0 cs0 =>
  simp only [RdNode.core, RdNode.children] at hnone ⊢
  simp only [Flat, RdNode.core, RdNode.children] at hflat
  simp only [RefsOk] at hrefs
  simp only [UsageInv] at hinv
  have hnoref : ∀ fd ∈ fds0, (fd.file == some [fn]) = false := by
    intro fd hfd
    rw [beq_eq_false_iff_ne]
    intro he
    have := hrefs fd hfd [fn] he
    simp only [getNode, RdNode.children] at this
    rw [hnone] at this
    simp at this
  have hfreshname : (freshFile fn).core.name = fn := rfl
  refine ⟨⟨hflat.1, ?_⟩, ?_, ?_⟩
  · intro c hc
    rcases List.mem_cons.mp hc with he | hm
    · subst he
      exact ⟨rfl, rfl⟩
    · exact hflat.2 c hm
  · intro fd hfd r hr
    have hold := hrefs fd hfd r hr
    match r with
    | [] => simp [getNode]
    | nm :: rest =>
      by_cases hnm : nm = fn
      · subst hnm
        exfalso
        simp only [getNode, RdNode.children] at hold
        rw [hnone] at hold
        simp at hold
      · rw [getNode_insert_other core0 _ cs0 nm rest
          (by rw [hfreshname]; exact fun h => hnm h.symm)]
        exact hold
  · intro r f₂ hget
    match r with
    | [] =>
      have hf₂ : f₂ = .mk core0 (freshFile fn :: cs0) := by
        simpa [getNode] using hget.symm
      subst hf₂
      have hold := hinv [] (.mk core0 cs0) (by simp [getNode])
      simpa [liveRefs, RdNode.core] using hold
    | nm :: rest =>
      by_cases hnm : nm = fn
      · subst hnm
        simp only [getNode, RdNode.children] at hget
        rw [show findExact (freshFile nm :: cs0) nm = some (freshFile nm) by
          simp [findExact, hfreshname]] at hget
        match rest with
        | [] =>
          have hf₂ : freshFile nm = f₂ := by simpa [getNode] using hget
          subst hf₂
          refine ⟨?_, by intro _; rfl, by intro _; rfl⟩
          show (0 : Int) = _
          have hz : (fds0.filter (fun fd => fd.file == some [nm])).length = 0 :=
            filter_len_zero _ fds0 hnoref
          simp [liveRefs, hz]
        | r2 :: rest2 =>
          exfalso
          simp [getNode, freshFile, RdNode.children, findExact] at hget
      · rw [getNode_insert_other core0 _ cs0 nm rest
          (by rw [hfreshname]; exact fun h => hnm h.symm)] at hget
        exact hinv (nm :: rest) f₂ hget

/-- Pointwise-equal mutations through a name-path coincide. -/
theorem updateNode_congr (g1 g2 : RdNode → RdNode) (h : ∀ n, g1 n = g2 n) :
    ∀ (r : List Bytes) (root : RdNode), updateNode root r g1 = updateNode root r g2 := by
  intro r
  induction r with
  | nil => intro root; exact h root
  | cons nm rest ih =>
    intro root
    cases root with
    | mk core cs =>
      simp only [updateNode]
      exact congrArg (RdNode.mk core) (updChild_congr nm _ _ (fun c => ih c) cs)

/-- A single-segment dereference through `findExact`. -/
theorem getNode_single {root : RdNode} {nm : Bytes} {c : RdNode}
    (h : findExact root.children nm = some c) : getNode root [nm] = some c := by
  cases root with
  | mk core cs =>
    simp only [RdNode.children] at h
    simp [getNode, RdNode.children, h]

/-- Membership through `updChild`: each member is an old member or the
image of one. -/
theorem mem_updChild {nm : Bytes} {g : RdNode → RdNode} :
    ∀ {ns : List RdNode} {a : RdNode}, a ∈ updChild nm g ns →
      a ∈ ns ∨ ∃ b, b ∈ ns ∧ a = g b := by
  intro ns
  induction ns with
  | nil => intro a h; simp [updChild] at h
  | cons n rest ih =>
    intro a h
    by_cases hn : n.core.name = nm
    · simp only [updChild, if_pos hn] at h
      rcases List.mem_cons.mp h with he | hm
      · exact Or.inr ⟨n, List.mem_cons_self n rest, he⟩
      · exact Or.inl (List.mem_cons_of_mem n hm)
    · simp only [updChild, if_neg hn] at h
      rcases List.mem_cons.mp h with he | hm
      · exact Or.inl (he ▸ List.mem_cons_self n rest)
      · rcases ih hm with h1 | ⟨b, hb, he⟩
        · exact Or.inl (List.mem_cons_of_mem n h1)
        · exact Or.inr ⟨b, List.mem_cons_of_mem n hb, he⟩

/-- Setting errno touches neither the tree nor the descriptors, so it
preserves well-formedness. -/
theorem WFInv_setE (st : RdState) (e : Errno) (h : WFInv st) : WFInv (setE st e) := by
  obtain ⟨root0, fds0, errno0⟩ := st
  exact h

/-- If `strrchr` finds no slash, the path is slash-free. -/
theorem no_slash_of_revSplitSlash_none :
    ∀ {p : Bytes}, revSplitSlash p = none → (47 : Nat) ∉ p := by
  intro p
  induction p with
  | nil => intro _ h; simp at h
  | cons b rest ih =>
    intro h hmem
    simp only [revSplitSlash] at h
    cases hr : revSplitSlash rest with
    | some pr =>
      obtain ⟨p1, s1⟩ := pr
      rw [hr] at h
      simp at h
    | none =>
      rw [hr] at h
      by_cases hb : b = 47
      · simp [hb] at h
      · rcases List.mem_cons.mp hmem with he | hm
        · exact hb he.symm
        · exact ih hr hm

/-- The descriptor record `openFinish` appends (its let-bound `fd`). -/
def openFd (r : List Bytes) (f : RdNode) (mode p : Nat) : RdFd :=
  { file := some r, dir := mode &&& O_DIR ≠ 0, ptr := p,
    dcur := if mode &&& O_DIR ≠ 0 then (f.children.head?).map (fun c => c.core.name)
            else none,
    omode := mode }

/-- The successful tail of `ramdisk_open` — lock-state update on the
opened node followed by `openFinish` — preserves well-formedness, for any
core update that only sets the lock state (to ReadLocked or WriteLocked)
and possibly the buffer fields. -/
theorem openFinish_preserves (st : RdState) (hflat : Flat st) (hrefs : RefsOk st)
    (hinv : UsageInv st) (r : List Bytes) (f : RdNode)
    (hget : getNode st.root r = some f) (g : RdF → RdF)
    (hgn : ∀ c, (g c).name = c.name) (hgd : ∀ c, (g c).isdir = c.isdir)
    (hgu : ∀ c, (g c).usage = c.usage)
    (hgo : ∀ c, (g c).openfor = OPENFOR_READ ∨ (g c).openfor = OPENFOR_WRITE)
    (mode p : Nat) (f' : RdNode) :
    WFInv (openFinish { st with root := updateNode st.root r (RdNode.mapCore g) }
      r f' mode p).snd := by
  obtain ⟨root0, fds0, errno0⟩ := st
  have hflat' : root0.core.isdir = true
      ∧ ∀ c ∈ root0.children, c.core.isdir = false ∧ c.children = [] := hflat
  have hget' : getNode root0 r = some f := hget
  set G : RdF → RdF := fun c => { g c with usage := (g c).usage + 1 }
  set gU : RdF → RdF := fun c => { c with usage := c.usage + 1 }
  have hGn : ∀ c, (G c).name = c.name := fun c => hgn c
  have hGd : ∀ c, (G c).isdir = c.isdir := fun c => hgd c
  have hGu : ∀ c, (G c).usage = c.usage + 1 := fun c => by
    show (g c).usage + 1 = c.usage + 1
    rw [hgu c]
  have hGo' : ∀ c, (G c).openfor ≠ OPENFOR_NOTHING := by
    intro c
    rcases hgo c with h | h
    · show (g c).openfor ≠ OPENFOR_NOTHING
      rw [h]; simp [OPENFOR_READ, OPENFOR_NOTHING]
    · show (g c).openfor ≠ OPENFOR_NOTHING
      rw [h]; simp [OPENFOR_WRITE, OPENFOR_NOTHING]
  have hmapg_name : ∀ n, (RdNode.mapCore g n).core.name = n.core.name := by
    intro n; cases n; simp [RdNode.mapCore, RdNode.core, hgn]
  have hmapG_name : ∀ n, (RdNode.mapCore G n).core.name = n.core.name := by
    intro n; cases n; simp [RdNode.mapCore, RdNode.core, hGn]
  have hfile : (openFd r f' mode p).file = some r := rfl
  have hsnd : (openFinish { root := updateNode root0 r (RdNode.mapCore g), fds := fds0, errno := errno0 } r f' mode p).snd
      = { root := updateNode (updateNode root0 r (RdNode.mapCore g)) r (RdNode.mapCore gU),
          fds := fds0 ++ [openFd r f' mode p],
          errno := errno0 } := rfl
  have hroot : updateNode (updateNode root0 r (RdNode.mapCore g)) r (RdNode.mapCore gU)
      = updateNode root0 r (RdNode.mapCore G) := by
    rw [updateNode_updateNode _ _ hmapg_name r root0]
    exact updateNode_congr _ _ (fun n => by rw [mapCore_mapCore]) r root0
  rw [hsnd, hroot]
  rcases @flat_getNode_shape { root := root0, fds := fds0, errno := errno0 }
      (fun c hc => (hflat'.2 c hc).2) r f hget' with ⟨hre, hfe⟩ | ⟨nm, hre, hfe⟩
  · -- r = [] : the root itself was opened
    subst hre
    have hSroot : updateNode root0 [] (RdNode.mapCore G) = RdNode.mapCore G root0 := rfl
    refine ⟨⟨?_, ?_⟩, ?_, ?_⟩
    · show (updateNode root0 [] (RdNode.mapCore G)).core.isdir = true
      show (RdNode.mapCore G root0).core.isdir = true
      rw [mapCore_core, hGd]
      exact hflat'.1
    · intro c hc
      have hc' : c ∈ (RdNode.mapCore G root0).children := hc
      rw [mapCore_children] at hc'
      exact hflat'.2 c hc'
    · intro fd hfd q hq
      have hfd' : fd ∈ fds0 ++ [openFd [] f' mode p] := hfd
      rcases List.mem_append.mp hfd' with hold | hnew
      · have h0 := hrefs fd hold q hq
        cases q with
        | nil => simp [getNode]
        | cons nm2 rest =>
          show (getNode (RdNode.mapCore G root0) (nm2 :: rest)).isSome = true
          rw [getNode_mapCore_cons]
          exact h0
      · have hfde : fd = openFd [] f' mode p := by simpa using hnew
        subst hfde
        rw [hfile] at hq
        have hq' : q = [] := (Option.some.inj hq).symm
        subst hq'
        simp [getNode]
    · intro q f₂ hget₂
      cases q with
      | nil =>
        have hget₂' : getNode (RdNode.mapCore G root0) [] = some f₂ := hget₂
        have hf₂ : f₂ = RdNode.mapCore G root0 := by
          simpa [getNode] using hget₂'.symm
        subst hf₂
        have hold := hinv [] root0 rfl
        have hlr : liveRefs (RdState.mk (updateNode root0 [] (RdNode.mapCore G))
              (fds0 ++ [openFd [] f' mode p]) errno0) []
            = liveRefs (RdState.mk root0 fds0 errno0) [] + 1 := by
          simp only [liveRefs]
          rw [filter_ref_append]
          simp [hfile]
        constructor
        · rw [mapCore_core, hGu, hlr, hold.1]
          push_cast
          ring
        · refine iff_of_false ?_ ?_
          · rw [mapCore_core, hGu, hold.1]
            omega
          · rw [mapCore_core]
            exact hGo' root0.core
      | cons nm2 rest =>
        have hget₂' : getNode (RdNode.mapCore G root0) (nm2 :: rest) = some f₂ := hget₂
        rw [getNode_mapCore_cons] at hget₂'
        have hold := hinv (nm2 :: rest) f₂ hget₂'
        have hlr : liveRefs (RdState.mk (updateNode root0 [] (RdNode.mapCore G))
              (fds0 ++ [openFd [] f' mode p]) errno0) (nm2 :: rest)
            = liveRefs (RdState.mk root0 fds0 errno0) (nm2 :: rest) := by
          simp only [liveRefs]
          rw [filter_ref_append]
          simp [hfile]
        rw [hlr]
        exact hold
  · -- r = [nm] : a child file was opened
    subst hre
    have hfname : f.core.name = nm := findExact_name hfe
    have hfmem : f ∈ root0.children := findExact_mem hfe
    have hgetf : getNode root0 [nm] = some f := getNode_single hfe
    have hnew_self : getNode (updateNode root0 [nm] (RdNode.mapCore G)) [nm]
        = some (RdNode.mapCore G f) := by
      rw [getNode_updateNode (RdNode.mapCore G) hmapG_name [nm] root0, hgetf]
      rfl
    have hnew_other : ∀ nm2 rest, nm2 ≠ nm →
        getNode (updateNode root0 [nm] (RdNode.mapCore G)) (nm2 :: rest)
          = getNode root0 (nm2 :: rest) :=
      fun nm2 rest h => getNode_updateNode_single_other nm nm2 h _ hmapG_name root0 rest
    have hnew_core : (updateNode root0 [nm] (RdNode.mapCore G)).core = root0.core :=
      updateNode_cons_core nm _ root0 []
    have hflatS : (updateNode root0 [nm] (RdNode.mapCore G)).core.isdir = true
        ∧ ∀ c ∈ (updateNode root0 [nm] (RdNode.mapCore G)).children,
            c.core.isdir = false ∧ c.children = [] := by
      constructor
      · rw [hnew_core]; exact hflat'.1
      · intro c hc
        rw [updateNode_single_children] at hc
        rcases mem_updChild hc with hm | ⟨b, hb, he⟩
        · exact hflat'.2 c hm
        · subst he
          have hb' := hflat'.2 b hb
          refine ⟨?_, ?_⟩
          · show (RdNode.mapCore G b).core.isdir = false
            rw [mapCore_core, hGd]
            exact hb'.1
          · show (RdNode.mapCore G b).children = []
            rw [mapCore_children]
            exact hb'.2
    refine ⟨hflatS, ?_, ?_⟩
    · intro fd hfd q hq
      have hfd' : fd ∈ fds0 ++ [openFd [nm] f' mode p] := hfd
      rcases List.mem_append.mp hfd' with hold | hnew
      · have h0 := hrefs fd hold q hq
        rcases Option.isSome_iff_exists.mp h0 with ⟨f₃, hf₃⟩
        have hf₃' : getNode root0 q = some f₃ := hf₃
        rcases @flat_getNode_shape { root := root0, fds := fds0, errno := errno0 }
            (fun c hc => (hflat'.2 c hc).2) q f₃ hf₃' with ⟨hqe, _⟩ | ⟨nm2, hqe, hfe2⟩
        · subst hqe; simp [getNode]
        · subst hqe
          by_cases hnm2 : nm2 = nm
          · subst hnm2
            show (getNode (updateNode root0 [nm2] (RdNode.mapCore G)) [nm2]).isSome = true
            rw [hnew_self]
            rfl
          · show (getNode (updateNode root0 [nm] (RdNode.mapCore G)) [nm2]).isSome = true
            rw [hnew_other nm2 [] hnm2, hf₃']
            rfl
      · have hfde : fd = openFd [nm] f' mode p := by simpa using hnew
        subst hfde
        rw [hfile] at hq
        have hq' : q = [nm] := (Option.some.inj hq).symm
        subst hq'
        show (getNode (updateNode root0 [nm] (RdNode.mapCore G)) [nm]).isSome = true
        rw [hnew_self]
        rfl
    · intro q f₂ hget₂
      rcases @flat_getNode_shape
          (RdState.mk (updateNode root0 [nm] (RdNode.mapCore G))
            (fds0 ++ [openFd [nm] f' mode p]) errno0)
          (fun c hc => (hflatS.2 c hc).2) q f₂ hget₂ with ⟨hqe, hf₂⟩ | ⟨nm2, hqe, hfe2⟩
      · subst hqe
        have hf₂' : f₂ = updateNode root0 [nm] (RdNode.mapCore G) := hf₂
        subst hf₂'
        have hold := hinv [] root0 rfl
        have hlr : liveRefs (RdState.mk (updateNode root0 [nm] (RdNode.mapCore G))
              (fds0 ++ [openFd [nm] f' mode p]) errno0) []
            = liveRefs (RdState.mk root0 fds0 errno0) [] := by
          simp only [liveRefs]
          rw [filter_ref_append]
          simp [hfile]
        rw [hlr, hnew_core]
        exact hold
      · subst hqe
        by_cases hnm2 : nm2 = nm
        · rw [hnm2] at hfe2 ⊢
          have hf₂' : f₂ = RdNode.mapCore G f := by
            have h1 := getNode_single hfe2
            rw [hnew_self] at h1
            exact (Option.some.inj h1).symm
          subst hf₂'
          have hold := hinv [nm] f hgetf
          have hlr : liveRefs (RdState.mk (updateNode root0 [nm] (RdNode.mapCore G))
                (fds0 ++ [openFd [nm] f' mode p]) errno0) [nm]
              = liveRefs (RdState.mk root0 fds0 errno0) [nm] + 1 := by
            simp only [liveRefs]
            rw [filter_ref_append]
            simp [hfile]
          constructor
          · rw [mapCore_core, hGu, hlr, hold.1]
            push_cast
            ring
          · refine iff_of_false ?_ ?_
            · rw [mapCore_core, hGu, hold.1]
              omega
            · rw [mapCore_core]
              exact hGo' f.core
        · have hnm2' : nm ≠ nm2 := fun he => hnm2 he.symm
          have hfe3 : findExact root0.children nm2 = some f₂ := by
            have h1 := getNode_single hfe2
            rw [hnew_other nm2 [] hnm2] at h1
            cases root0 with
            | mk core cs =>
              simp only [getNode, RdNode.children] at h1 ⊢
              cases hx : findExact cs nm2 with
              | none => rw [hx] at h1; simp at h1
              | some c =>
                rw [hx] at h1
                have hcf : c = f₂ := by simpa [getNode] using h1
                rw [← hcf]
          have hold := hinv [nm2] f₂ (getNode_single hfe3)
          have hlr : liveRefs (RdState.mk (updateNode root0 [nm] (RdNode.mapCore G))
                (fds0 ++ [openFd [nm] f' mode p]) errno0) [nm2]
              = liveRefs (RdState.mk root0 fds0 errno0) [nm2] := by
            simp only [liveRefs]
            rw [filter_ref_append]
            simp [hfile, hnm2, hnm2']
          rw [hlr]
          exact hold

/-- The resolution phase of a well-formed open: a successful resolve
yields a well-formed state in which the returned name-path dereferences
to the returned node.  (The create branch inserts a fresh idle file.) -/
theorem openResolve_wf (st : RdState) (hwf : WFInv st) (fn : Bytes) (mode mm : Nat)
    (r : List Bytes) (f : RdNode) (st1 : RdState)
    (hres : openResolve st fn mode mm = some (r, f, st1)) :
    WFInv st1 ∧ getNode st1.root r = some f := by
  by_cases hfn : fn = []
  · subst hfn
    have hres' : some (([] : List Bytes), st.root, st) = some (r, f, st1) := by
      rw [← hres]; simp [openResolve]
    rw [Option.some.injEq, Prod.mk.injEq, Prod.mk.injEq] at hres'
    obtain ⟨hr, hf, hst⟩ := hres'
    subst hr
    subst hst
    exact ⟨hwf, by rw [← hf]; exact rfl⟩
  · simp only [openResolve, if_neg hfn, ramdisk_find_path] at hres
    by_cases hd : mode &&& O_DIR = 0
    · rw [hd] at hres
      simp only [ne_eq, decide_not] at hres
      rcases @flat_findPathAux_file st.root.children
          (fun n hn => (hwf.1.2 n hn).1) (splitSlash fn) with hnone | ⟨f1, hsome, hfex, hfd1⟩
      · rw [show ((!decide True) : Bool) = false from rfl] at hres
        rw [hnone] at hres
        by_cases hro : mm = O_RDONLY
        · simp [hro] at hres
        · rw [if_pos (show ¬mm = O_RDONLY ∧ True from ⟨hro, trivial⟩)] at hres
          cases hsplit : revSplitSlash fn with
          | some pr =>
            obtain ⟨pname, restp⟩ := pr
            have hdirnone := @flat_findPathAux_dir st.root.children
              (fun n hn => (hwf.1.2 n hn).1) (splitSlash pname)
            simp [ramdisk_create_file, ramdisk_get_parent, hsplit, hdirnone] at hres
          | none =>
            have hnoslash : (47 : Nat) ∉ fn := no_slash_of_revSplitSlash_none hsplit
            have hsp : splitSlash fn = [fn] := splitSlash_no_slash fn hnoslash
            rw [hsp] at hnone
            have hfindnone : ramdisk_find st.root.children fn = none := by
              cases hfind : ramdisk_find st.root.children fn with
              | none => rfl
              | some f2 =>
                exfalso
                have hf2d := (hwf.1.2 f2 (ramdisk_find_mem hfind)).1
                simp [findPathAux, hfn, hfind, hf2d] at hnone
            have hnone' : findExact st.root.children fn = none :=
              findExact_none_of_find_none hfindnone
            have hcreate : ramdisk_create_file st.root fn false
                = some (RdNode.mk st.root.core (freshFile fn :: st.root.children), [fn]) := by
              simp [ramdisk_create_file, ramdisk_get_parent, hsplit, updateNode, freshFile]
            have hgetnew : getNode (RdNode.mk st.root.core (freshFile fn :: st.root.children)) [fn]
                = some (freshFile fn) := by
              simp [getNode, RdNode.children, findExact, freshFile, RdNode.core]
            simp only [hcreate, hgetnew, Option.some.injEq, Prod.mk.injEq] at hres
            obtain ⟨hr, hf, hst⟩ := hres
            subst hr
            constructor
            · rw [← hst]
              exact insert_preserves st hwf.1 hwf.2.1 hwf.2.2 fn hnone'
            · rw [← hst, ← hf]
              simp [getNode, RdNode.children, RdNode.core, findExact, freshFile]
      · rw [show ((!decide True) : Bool) = false from rfl] at hres
        rw [hsome] at hres
        simp only [Option.some.injEq, Prod.mk.injEq] at hres
        obtain ⟨hr, hf, hst⟩ := hres
        subst hr; subst hf; subst hst
        exact ⟨hwf, getNode_single hfex⟩
    · have hdirnone := @flat_findPathAux_dir st.root.children
        (fun n hn => (hwf.1.2 n hn).1) (splitSlash fn)
      simp [hd, hdirnone] at hres

/-- `ramdisk_open` preserves well-formedness: every branch either leaves
the tree and descriptors alone (possibly setting errno), creates a fresh
idle file, or locks the resolved node and appends a descriptor for it. -/
theorem open_preserves (st : RdState) (hwf : WFInv st) (fn0 : Bytes) (mode : Nat) :
    WFInv (ramdisk_open st fn0 mode).snd := by
  simp only [ramdisk_open]
  by_cases h1 : mode &&& O_DIR ≠ 0 ∧ mode &&& O_MODE_MASK ≠ O_RDONLY
  · rw [if_pos h1]
    exact WFInv_setE st .EISDIR hwf
  · rw [if_neg h1]
    cases hres : openResolve st (stripSlash fn0) mode (mode &&& O_MODE_MASK) with
    | none => exact WFInv_setE st .ENOENT hwf
    | some t =>
      obtain ⟨r, f, st1⟩ := t
      obtain ⟨hwf1, hget1⟩ :=
        openResolve_wf st hwf (stripSlash fn0) mode (mode &&& O_MODE_MASK) r f st1 hres
      show WFInv ((if f.core.isdir = true ∧ mode &&& O_DIR = 0 then ((none : Option Nat), setE st1 .EINVAL)
        else if f.core.openfor = OPENFOR_WRITE then (none, st1)
        else if mode &&& O_MODE_MASK = O_RDONLY then
          openFinish { st1 with root := updateNode st1.root r (RdNode.mapCore (fun c => { c with openfor := OPENFOR_READ })) } r f mode 0
        else if mode &&& O_MODE_MASK &&& O_RDWR ≠ 0 ∨ mode &&& O_MODE_MASK &&& O_WRONLY ≠ 0 then
          if f.core.openfor = OPENFOR_READ then (none, st1)
          else if mode &&& O_APPEND ≠ 0 then
            openFinish { st1 with root := updateNode st1.root r (RdNode.mapCore (fun c => { c with openfor := OPENFOR_WRITE })) } r f mode f.core.size
          else if mode &&& O_TRUNC ≠ 0 then
            openFinish { st1 with root := updateNode st1.root r (RdNode.mapCore (fun c => { c with openfor := OPENFOR_WRITE, datasize := rd_blksize, bytes := List.replicate rd_blksize 0, size := 0 })) } r f mode 0
          else
            openFinish { st1 with root := updateNode st1.root r (RdNode.mapCore (fun c => { c with openfor := OPENFOR_WRITE })) } r f mode 0
        else (none, st1)).snd)
      by_cases h2 : f.core.isdir = true ∧ mode &&& O_DIR = 0
      · rw [if_pos h2]
        exact WFInv_setE st1 .EINVAL hwf1
      · rw [if_neg h2]
        by_cases h3 : f.core.openfor = OPENFOR_WRITE
        · rw [if_pos h3]
          exact hwf1
        · rw [if_neg h3]
          by_cases h4 : mode &&& O_MODE_MASK = O_RDONLY
          · rw [if_pos h4]
            exact openFinish_preserves st1 hwf1.1 hwf1.2.1 hwf1.2.2 r f hget1
              (fun c => { c with openfor := OPENFOR_READ })
              (fun c => rfl) (fun c => rfl) (fun c => rfl) (fun c => Or.inl rfl) mode 0 f
          · rw [if_neg h4]
            by_cases h5 : mode &&& O_MODE_MASK &&& O_RDWR ≠ 0 ∨ mode &&& O_MODE_MASK &&& O_WRONLY ≠ 0
            · rw [if_pos h5]
              by_cases h6 : f.core.openfor = OPENFOR_READ
              · rw [if_pos h6]
                exact hwf1
              · rw [if_neg h6]
                by_cases h7 : mode &&& O_APPEND ≠ 0
                · rw [if_pos h7]
                  exact openFinish_preserves st1 hwf1.1 hwf1.2.1 hwf1.2.2 r f hget1
                    (fun c => { c with openfor := OPENFOR_WRITE })
                    (fun c => rfl) (fun c => rfl) (fun c => rfl) (fun c => Or.inr rfl)
                    mode f.core.size f
                · rw [if_neg h7]
                  by_cases h8 : mode &&& O_TRUNC ≠ 0
                  · rw [if_pos h8]
                    exact openFinish_preserves st1 hwf1.1 hwf1.2.1 hwf1.2.2 r f hget1
                      (fun c => { c with openfor := OPENFOR_WRITE, datasize := rd_blksize, bytes := List.replicate rd_blksize 0, size := 0 })
                      (fun c => rfl) (fun c => rfl) (fun c => rfl) (fun c => Or.inr rfl)
                      mode 0 f
                  · rw [if_neg h8]
                    exact openFinish_preserves st1 hwf1.1 hwf1.2.1 hwf1.2.2 r f hget1
                      (fun c => { c with openfor := OPENFOR_WRITE })
                      (fun c => rfl) (fun c => rfl) (fun c => rfl) (fun c => Or.inr rfl)
                      mode 0 f
            · rw [if_neg h5]
              exact hwf1

/-- What a live handle guarantees: the index is occupied and the
descriptor holds a node reference. -/
theorem liveFd_spec (st : RdState) (h : Option Nat) (i : Nat) (fd : RdFd)
    (r : List Bytes) (hl : liveFd st h = some (i, fd, r)) :
    st.fds[i]? = some fd ∧ fd.file = some r := by
  cases h with
  | none => simp [liveFd] at hl
  | some j =>
    simp only [liveFd] at hl
    cases hj : st.fds[j]? with
    | none => simp [hj] at hl
    | some fd0 =>
      cases hf : fd0.file with
      | none => simp [hj, hf] at hl
      | some r0 =>
        simp only [hj, hf, Option.some.injEq, Prod.mk.injEq] at hl
        obtain ⟨hi, hfd, hr⟩ := hl
        subst hi; subst hfd; subst hr
        exact ⟨hj, hf⟩

/-- `closeUpd` keeps the name. -/
theorem closeUpd_name (c : RdF) : (closeUpd c).name = c.name := by
  simp only [closeUpd]; split <;> rfl

/-- `closeUpd` keeps the directory flag. -/
theorem closeUpd_isdir (c : RdF) : (closeUpd c).isdir = c.isdir := by
  simp only [closeUpd]; split <;> rfl

/-- `closeUpd` decrements the usage count. -/
theorem closeUpd_usage (c : RdF) : (closeUpd c).usage = c.usage - 1 := by
  simp only [closeUpd]; split <;> rfl

/-- `closeUpd`'s lock state: reset exactly when the count hits zero. -/
theorem closeUpd_openfor (c : RdF) :
    (c.usage - 1 = 0 → (closeUpd c).openfor = OPENFOR_NOTHING)
    ∧ (c.usage - 1 ≠ 0 → (closeUpd c).openfor = c.openfor) := by
  by_cases hz : c.usage - 1 = 0 <;> simp [closeUpd, hz]

/-- `ramdisk_close` preserves well-formedness: an invalid handle only sets
errno, and a valid close clears one node reference while `closeUpd`
decrements the matching usage count and frees the lock exactly at zero. -/
theorem close_preserves (st : RdState) (hwf : WFInv st) (hnd : Option Nat) :
    WFInv (ramdisk_close st hnd).snd := by
  cases hlive : liveFd st hnd with
  | none =>
    simp only [ramdisk_close, hlive]
    exact WFInv_setE st .EBADF hwf
  | some t =>
    obtain ⟨i, fd, r⟩ := t
    obtain ⟨hfdi, hfile⟩ := liveFd_spec st hnd i fd r hlive
    obtain ⟨hflat, hrefs, hinv⟩ := hwf
    obtain ⟨root0, fds0, errno0⟩ := st
    have hflat' : root0.core.isdir = true
        ∧ ∀ c ∈ root0.children, c.core.isdir = false ∧ c.children = [] := hflat
    have hfdi' : fds0[i]? = some fd := hfdi
    have hmem : fd ∈ fds0 := mem_of_getElem? hfdi'
    obtain ⟨fnode, hfnode0⟩ := Option.isSome_iff_exists.mp (hrefs fd hmem r hfile)
    have hfnode : getNode root0 r = some fnode := hfnode0
    have holdr := hinv r fnode hfnode
    have hposN : 0 < liveRefs (RdState.mk root0 fds0 errno0) r :=
      filter_len_pos _ fds0 fd hmem (by rw [hfile]; simp)
    have hmapc_name : ∀ n, (RdNode.mapCore closeUpd n).core.name = n.core.name := by
      intro n; cases n; simp [RdNode.mapCore, RdNode.core, closeUpd_name]
    have hcount : ∀ q : List Bytes,
        ((fds0.set i { fd with file := none }).filter (fun x => x.file == some q)).length
          + (if (fd.file == some q) = true then 1 else 0)
        = (fds0.filter (fun x => x.file == some q)).length := by
      intro q
      have h2 := filter_length_set (fun x => x.file == some q) fds0 i
        { fd with file := none } fd hfdi'
      simpa [show (({ fd with file := none } : RdFd).file == some q) = false from rfl]
        using h2
    simp only [ramdisk_close, hlive]
    show WFInv (RdState.mk (updateNode root0 r (RdNode.mapCore closeUpd))
      (fds0.set i { fd with file := none }) errno0)
    rcases @flat_getNode_shape (RdState.mk root0 fds0 errno0)
        (fun c hc => (hflat'.2 c hc).2) r fnode hfnode
      with ⟨hre, hfe⟩ | ⟨nm, hre, hfe⟩
    · -- r = [] : a descriptor on the root directory is being closed
      subst hre
      have hfeq : root0 = fnode := hfe.symm
      subst hfeq
      have hmatch : (fd.file == some ([] : List Bytes)) = true := by rw [hfile]; simp
      have hc1 : ((fds0.set i { fd with file := none }).filter
            (fun x => x.file == some ([] : List Bytes))).length + 1
          = (fds0.filter (fun x => x.file == some ([] : List Bytes))).length := by
        have h2 := hcount []
        rw [hmatch] at h2
        simpa using h2
      have hlr : liveRefs (RdState.mk (updateNode root0 [] (RdNode.mapCore closeUpd))
            (fds0.set i { fd with file := none }) errno0) [] + 1
          = liveRefs (RdState.mk root0 fds0 errno0) [] := hc1
      refine ⟨⟨?_, ?_⟩, ?_, ?_⟩
      · show (RdNode.mapCore closeUpd root0).core.isdir = true
        rw [mapCore_core, closeUpd_isdir]
        exact hflat'.1
      · intro c hc
        have hc' : c ∈ (RdNode.mapCore closeUpd root0).children := hc
        rw [mapCore_children] at hc'
        exact hflat'.2 c hc'
      · intro fd2 hfd2 q hq
        have hfd2' : fd2 ∈ fds0.set i { fd with file := none } := hfd2
        rcases List.mem_or_eq_of_mem_set hfd2' with hold | hnew
        · have h0 := hrefs fd2 hold q hq
          cases q with
          | nil => simp [getNode]
          | cons nm2 rest =>
            show (getNode (RdNode.mapCore closeUpd root0) (nm2 :: rest)).isSome = true
            rw [getNode_mapCore_cons]
            exact h0
        · subst hnew
          rw [show ({ fd with file := none } : RdFd).file = none from rfl] at hq
          simp at hq
      · intro q f₂ hget₂
        cases q with
        | nil =>
          have hget₂' : getNode (RdNode.mapCore closeUpd root0) [] = some f₂ := hget₂
          have hf₂ : f₂ = RdNode.mapCore closeUpd root0 := by
            simpa [getNode] using hget₂'.symm
          subst hf₂
          constructor
          · rw [mapCore_core, closeUpd_usage, holdr.1]
            omega
          · rw [mapCore_core]
            by_cases hz : root0.core.usage - 1 = 0
            · refine iff_of_true ?_ ((closeUpd_openfor root0.core).1 hz)
              rw [closeUpd_usage]
              exact hz
            · refine iff_of_false ?_ ?_
              · rw [closeUpd_usage]
                exact hz
              · rw [(closeUpd_openfor root0.core).2 hz]
                intro hno
                have h2 := holdr.2.mpr hno
                rw [holdr.1] at h2
                omega
        | cons nm2 rest =>
          have hget₂' : getNode (RdNode.mapCore closeUpd root0) (nm2 :: rest) = some f₂ := hget₂
          rw [getNode_mapCore_cons] at hget₂'
          have hold := hinv (nm2 :: rest) f₂ hget₂'
          have hc1 : ((fds0.set i { fd with file := none }).filter
                (fun x => x.file == some (nm2 :: rest))).length
              = (fds0.filter (fun x => x.file == some (nm2 :: rest))).length := by
            have h2 := hcount (nm2 :: rest)
            rw [show (fd.file == some (nm2 :: rest)) = false from by rw [hfile]; simp] at h2
            simpa using h2
          have hlr : liveRefs (RdState.mk (updateNode root0 [] (RdNode.mapCore closeUpd))
                (fds0.set i { fd with file := none }) errno0) (nm2 :: rest)
              = liveRefs (RdState.mk root0 fds0 errno0) (nm2 :: rest) := hc1
          rw [hlr]
          exact hold
    · -- r = [nm] : a descriptor on a child file is being closed
      subst hre
      have hnew_self : getNode (updateNode root0 [nm] (RdNode.mapCore closeUpd)) [nm]
          = some (RdNode.mapCore closeUpd fnode) := by
        rw [getNode_updateNode (RdNode.mapCore closeUpd) hmapc_name [nm] root0, hfnode]
        rfl
      have hnew_other : ∀ nm2 rest, nm2 ≠ nm →
          getNode (updateNode root0 [nm] (RdNode.mapCore closeUpd)) (nm2 :: rest)
            = getNode root0 (nm2 :: rest) :=
        fun nm2 rest h => getNode_updateNode_single_other nm nm2 h _ hmapc_name root0 rest
      have hnew_core : (updateNode root0 [nm] (RdNode.mapCore closeUpd)).core = root0.core :=
        updateNode_cons_core nm _ root0 []
      have hflatS : (updateNode root0 [nm] (RdNode.mapCore closeUpd)).core.isdir = true
          ∧ ∀ c ∈ (updateNode root0 [nm] (RdNode.mapCore closeUpd)).children,
              c.core.isdir = false ∧ c.children = [] := by
        constructor
        · rw [hnew_core]; exact hflat'.1
        · intro c hc
          rw [updateNode_single_children] at hc
          rcases mem_updChild hc with hm | ⟨b, hb, he⟩
          · exact hflat'.2 c hm
          · subst he
            have hb' := hflat'.2 b hb
            refine ⟨?_, ?_⟩
            · show (RdNode.mapCore closeUpd b).core.isdir = false
              rw [mapCore_core, closeUpd_isdir]
              exact hb'.1
            · show (RdNode.mapCore closeUpd b).children = []
              rw [mapCore_children]
              exact hb'.2
      refine ⟨hflatS, ?_, ?_⟩
      · intro fd2 hfd2 q hq
        have hfd2' : fd2 ∈ fds0.set i { fd with file := none } := hfd2
        rcases List.mem_or_eq_of_mem_set hfd2' with hold | hnew
        · have h0 := hrefs fd2 hold q hq
          rcases Option.isSome_iff_exists.mp h0 with ⟨f₃, hf₃⟩
          have hf₃' : getNode root0 q = some f₃ := hf₃
          rcases @flat_getNode_shape (RdState.mk root0 fds0 errno0)
              (fun c hc => (hflat'.2 c hc).2) q f₃ hf₃' with ⟨hqe, _⟩ | ⟨nm2, hqe, hfe2⟩
          · subst hqe; simp [getNode]
          · subst hqe
            by_cases hnm2 : nm2 = nm
            · rw [hnm2]
              show (getNode (updateNode root0 [nm] (RdNode.mapCore closeUpd)) [nm]).isSome = true
              rw [hnew_self]
              rfl
            · show (getNode (updateNode root0 [nm] (RdNode.mapCore closeUpd)) [nm2]).isSome = true
              rw [hnew_other nm2 [] hnm2, hf₃']
              rfl
        · subst hnew
          rw [show ({ fd with file := none } : RdFd).file = none from rfl] at hq
          simp at hq
      · intro q f₂ hget₂
        rcases @flat_getNode_shape
            (RdState.mk (updateNode root0 [nm] (RdNode.mapCore closeUpd))
              (fds0.set i { fd with file := none }) errno0)
            (fun c hc => (hflatS.2 c hc).2) q f₂ hget₂ with ⟨hqe, hf₂⟩ | ⟨nm2, hqe, hfe2⟩
        · subst hqe
          have hf₂' : f₂ = updateNode root0 [nm] (RdNode.mapCore closeUpd) := hf₂
          subst hf₂'
          have hold := hinv [] root0 rfl
          have hc1 : ((fds0.set i { fd with file := none }).filter
                (fun x => x.file == some ([] : List Bytes))).length
              = (fds0.filter (fun x => x.file == some ([] : List Bytes))).length := by
            have h2 := hcount []
            rw [show (fd.file == some ([] : List Bytes)) = false from by rw [hfile]; simp] at h2
            simpa using h2
          have hlr : liveRefs (RdState.mk (updateNode root0 [nm] (RdNode.mapCore closeUpd))
                (fds0.set i { fd with file := none }) errno0) []
              = liveRefs (RdState.mk root0 fds0 errno0) [] := hc1
          rw [hlr, hnew_core]
          exact hold
        · subst hqe
          by_cases hnm2 : nm2 = nm
          · rw [hnm2] at hfe2 ⊢
            have hf₂' : f₂ = RdNode.mapCore closeUpd fnode := by
              have h1 := getNode_single hfe2
              rw [hnew_self] at h1
              exact (Option.some.inj h1).symm
            subst hf₂'
            have hmatch : (fd.file == some [nm]) = true := by rw [hfile]; simp
            have hc1 : ((fds0.set i { fd with file := none }).filter
                  (fun x => x.file == some [nm])).length + 1
                = (fds0.filter (fun x => x.file == some [nm])).length := by
              have h2 := hcount [nm]
              rw [hmatch] at h2
              simpa using h2
            have hlr : liveRefs (RdState.mk (updateNode root0 [nm] (RdNode.mapCore closeUpd))
                  (fds0.set i { fd with file := none }) errno0) [nm] + 1
                = liveRefs (RdState.mk root0 fds0 errno0) [nm] := hc1
            constructor
            · rw [mapCore_core, closeUpd_usage, holdr.1]
              omega
            · rw [mapCore_core]
              by_cases hz : fnode.core.usage - 1 = 0
              · refine iff_of_true ?_ ((closeUpd_openfor fnode.core).1 hz)
                rw [closeUpd_usage]
                exact hz
              · refine iff_of_false ?_ ?_
                · rw [closeUpd_usage]
                  exact hz
                · rw [(closeUpd_openfor fnode.core).2 hz]
                  intro hno
                  have h2 := holdr.2.mpr hno
                  rw [holdr.1] at h2
                  omega
          · have hnm2' : nm ≠ nm2 := fun he => hnm2 he.symm
            have hfe3 : findExact root0.children nm2 = some f₂ := by
              have h1 := getNode_single hfe2
              rw [hnew_other nm2 [] hnm2] at h1
              cases root0 with
              | mk core cs =>
                simp only [getNode, RdNode.children] at h1 ⊢
                cases hx : findExact cs nm2 with
                | none => rw [hx] at h1; simp at h1
                | some c =>
                  rw [hx] at h1
                  have hcf : c = f₂ := by simpa [getNode] using h1
                  rw [← hcf]
            have hold := hinv [nm2] f₂ (getNode_single hfe3)
            have hc1 : ((fds0.set i { fd with file := none }).filter
                  (fun x => x.file == some [nm2])).length
                = (fds0.filter (fun x => x.file == some [nm2])).length := by
              have h2 := hcount [nm2]
              rw [show (fd.file == some [nm2]) = false from by rw [hfile]; simp [hnm2']] at h2
              simpa using h2
            have hlr : liveRefs (RdState.mk (updateNode root0 [nm] (RdNode.mapCore closeUpd))
                  (fds0.set i { fd with file := none }) errno0) [nm2]
                = liveRefs (RdState.mk root0 fds0 errno0) [nm2] := hc1
            rw [hlr]
            exact hold

/-- The freshly initialised ramdisk is well-formed. -/
theorem initState_wf : WFInv initState := by
  refine ⟨⟨rfl, ?_⟩, ?_, ?_⟩
  · intro c hc
    simp [initState, RdNode.children] at hc
  · intro fd hfd
    simp [initState] at hfd
  · intro r f hget
    cases r with
    | nil =>
      have hf : f = initState.root := by simpa [getNode] using hget.symm
      subst hf
      exact ⟨rfl, ⟨fun _ => rfl, fun _ => rfl⟩⟩
    | cons nm rest =>
      exfalso
      simp [initState, getNode, RdNode.children, findExact] at hget

/-- The state after a first read-only open of the idle file "a". -/
def stC9a : RdState := (ramdisk_open stA [97] O_RDONLY).snd

/-- ... after a second read-only open of the same file. -/
def stC9b : RdState := (ramdisk_open stC9a [97] O_RDONLY).snd

/-- ... after closing the first of the two read descriptors. -/
def stC9c : RdState := (ramdisk_close stC9b (some 1)).snd

/-- C9: reader sharing and the usage-count invariant.  Two read-only opens
of the same idle file both succeed (handles 1 and 2) and leave the node's
usage count at 2 with the lock state ReadLocked; closing one descriptor
returns 0 and leaves usage 1, still ReadLocked, after which a further
read-only open succeeds (handle 3) while a write open fails, returning
NULL with the state untouched.  Moreover the initial state satisfies the
invariant that each node's usage count equals the number of live
descriptors referencing it, with the lock Free exactly at count zero, and
both `ramdisk_open` and `ramdisk_close` preserve it from any well-formed
state. -/
theorem c9_reader_sharing_usage_invariant :
    ((ramdisk_open stA [97] O_RDONLY).fst = some 1
      ∧ (ramdisk_open stC9a [97] O_RDONLY).fst = some 2
      ∧ (getNode stC9b.root [[97]]).map (fun f => (f.core.usage, f.core.openfor))
          = some (2, OPENFOR_READ))
    ∧ ((ramdisk_close stC9b (some 1)).fst = 0
      ∧ (getNode stC9c.root [[97]]).map (fun f => (f.core.usage, f.core.openfor))
          = some (1, OPENFOR_READ)
      ∧ (ramdisk_open stC9c [97] O_RDONLY).fst = some 3
      ∧ ramdisk_open stC9c [97] O_WRONLY = (none, stC9c))
    ∧ WFInv initState
    ∧ (∀ st fn mode, WFInv st → WFInv (ramdisk_open st fn mode).snd)
    ∧ (∀ st h, WFInv st → WFInv (ramdisk_close st h).snd) := by
  refine ⟨⟨rfl, rfl, rfl⟩, ⟨rfl, rfl, rfl, rfl⟩, initState_wf,
    fun st fn mode h => open_preserves st h fn mode,
    fun st h hw => close_preserves st hw h⟩

/-- The preservation halves of C9 applied at a concrete input: the state
after opening and closing "a" on the fresh ramdisk is well-formed. -/
theorem c9_reader_sharing_usage_invariant_witness :
    WFInv (ramdisk_close (ramdisk_open initState [97] O_RDONLY).snd (some 0)).snd :=
  c9_reader_sharing_usage_invariant.2.2.2.2 _ (some 0)
    (c9_reader_sharing_usage_invariant.2.2.2.1 initState [97] O_RDONLY
      c9_reader_sharing_usage_invariant.2.2.1)

end Ramdisk
